import Mathlib

/-!
The libTAS audio context: identifier pools and tick-to-byte conversion

A shallow embedding of `src/libTAS/audio/AudioContext.cpp` and of `link_function`
of `src/libTAS/hook.cpp`.

* `std::list<std::shared_ptr<AudioBuffer>> buffers` and the recycle list
  `buffers_pool` (likewise for sources) are Lean lists whose head is the C++
  `front()`.
* `AudioBuffer` and `AudioSource` are declared in headers that are not part of
  the files embedded here; only their `id` member is used by the context.  An object
  is therefore an `id` together with a payload of an arbitrary type standing for
  the rest of the object.
* The function-local `static int64_t samples_frac` of `ticksToBytes` is carried
  as a field of the state.
* Machine integers are `Int` with explicit reduction to the width of the C++
  type.
-/

namespace libtas

/-! ## Machine integers -/

/-- Conversion of an integer value to `uint64_t`. -/
def toU64 (x : Int) : Int := x % 2 ^ 64

/-- Conversion of an integer value to `int64_t` (two's complement). -/
def toI64 (x : Int) : Int :=
  if x % 2 ^ 64 < 2 ^ 63 then x % 2 ^ 64 else x % 2 ^ 64 - 2 ^ 64

/-- Conversion of an integer value to `int` (32 bits, two's complement). -/
def toI32 (x : Int) : Int :=
  if x % 2 ^ 32 < 2 ^ 31 then x % 2 ^ 32 else x % 2 ^ 32 - 2 ^ 32

/-! ## Data model -/

/-- The constant `MAXBUFFERS`, defined as 2048. -/
def MAXBUFFERS : Nat := 2048

/-- The constant `MAXSOURCES`, defined as 256. -/
def MAXSOURCES : Nat := 256

/-- The C `struct timespec`: both members are signed 64-bit integers. -/
structure timespec where
  tv_sec : Int
  tv_nsec : Int
deriving DecidableEq, Repr

/-- An audio object as the context sees it: the `id` member and the remainder of
the object. -/
structure AudioObject (α : Type) where
  id : Int
  payload : α
deriving DecidableEq, Repr

/-- The class `AudioBuffer`, of which the context reads and writes only `id`. -/
abbrev AudioBuffer (β : Type) := AudioObject β

/-- The class `AudioSource`, of which the context reads and writes only `id` and on which
it calls `mixWith`. -/
abbrev AudioSource (σ : Type) := AudioObject σ

/-- The members of `AudioContext` together with the static accumulator of
`ticksToBytes`. -/
structure AudioContext (β σ V : Type) where
  outVolume : V
  outBitDepth : Int
  outNbChannels : Int
  outFrequency : Int
  outAlignSize : Int
  outBytes : Int
  outNbSamples : Int
  outSamples : List Nat
  buffers : List (AudioBuffer β)
  buffers_pool : List (AudioBuffer β)
  sources : List (AudioSource σ)
  sources_pool : List (AudioSource σ)
  samples_frac : Int
deriving DecidableEq, Repr

/-- What the context consumes from code outside `AudioContext.cpp`: the contents
of a default-constructed buffer and source (`std::make_shared<...>()`), and
`AudioSource::mixWith`, taken as a function of the source, the interval, the
output buffer and the format arguments to the new output buffer. -/
structure Env (β σ V : Type) where
  newBuffer : β
  newSource : σ
  mixWith : AudioSource σ → timespec → List Nat → Int → Int → Int → Int → V → List Nat

variable {α β σ V : Type}

/-! ## `ticksToBytes` -/

/-- Lines 35 to 42 of `ticksToBytes`: from the static `samples_frac` and the
arguments `ticks` and `frequency` to the value of the local `samples` and the new
value of `samples_frac`.

`nsecs`, `nsecs * frequency` and `samples` are `uint64_t`, `samples_frac` is
`int64_t`; `samples_frac += x` with `x` unsigned is computed in `uint64_t` and
converted back. -/
def ticksToSamples (samples_frac : Int) (ticks : timespec) (frequency : Int) : Int × Int :=
  let nsecs : Int := toU64 (toU64 (toU64 ticks.tv_sec * 1000000000) + toU64 ticks.tv_nsec)
  let samples : Int := toU64 (nsecs * toU64 frequency) / 1000000000
  let samples_frac : Int :=
    toI64 (toU64 samples_frac + toU64 (nsecs * toU64 frequency) % 1000000000)
  if samples_frac ≥ 500000000 then
    (toU64 (samples + 1), toI64 (samples_frac - 1000000000))
  else
    (samples, samples_frac)

/-- The function `ticksToBytes(ticks, alignSize, frequency)` with the static `samples_frac`
passed in; returns the `int` result and the new value of `samples_frac`.
`bytes = samples * alignSize` is `uint64_t` and the result is cast to `int`. -/
def ticksToBytes (samples_frac : Int) (ticks : timespec) (alignSize frequency : Int) :
    Int × Int :=
  let r := ticksToSamples samples_frac ticks frequency
  (toI32 (toU64 (r.1 * toU64 alignSize)), r.2)

/-! ## Buffers -/

/-- The method `AudioContext::createBuffer`: the returned `int` and the context afterwards.
The new id `buffers.size() + 1` is at most 2048 under the guard, so the
conversion to `int` is exact. -/
def createBuffer (env : Env β σ V) (ctx : AudioContext β σ V) : Int × AudioContext β σ V :=
  if ctx.buffers.length ≥ MAXBUFFERS then
    (-1, ctx)
  else
    match ctx.buffers_pool with
    | b :: rest => (b.id, { ctx with buffers := b :: ctx.buffers, buffers_pool := rest })
    | [] =>
      let newab : AudioBuffer β := { id := (ctx.buffers.length : Int) + 1, payload := env.newBuffer }
      (newab.id, { ctx with buffers := newab :: ctx.buffers })

/-- The `remove_if` of `deleteBuffer` and `deleteSource`: walk the list front to
back; an element whose id matches is pushed on the front of the recycle list and
dropped, any other is kept. Returns the list that is left and the recycle list. -/
def removeIf (id : Int) :
    List (AudioObject α) → List (AudioObject α) → List (AudioObject α) × List (AudioObject α)
  | [], pool => ([], pool)
  | b :: rest, pool =>
    if b.id = id then
      removeIf id rest (b :: pool)
    else
      ((b :: (removeIf id rest pool).1), (removeIf id rest pool).2)

/-- The method `AudioContext::deleteBuffer`. -/
def deleteBuffer (ctx : AudioContext β σ V) (id : Int) : AudioContext β σ V :=
  { ctx with
    buffers := (removeIf id ctx.buffers ctx.buffers_pool).1
    buffers_pool := (removeIf id ctx.buffers ctx.buffers_pool).2 }

/-- The scan of `isBuffer` and `isSource`. -/
def scanIs (id : Int) : List (AudioObject α) → Bool
  | [] => false
  | b :: rest => if b.id = id then true else scanIs id rest

/-- The scan of `getBuffer` and `getSource`; `none` is `nullptr`. -/
def scanGet (id : Int) : List (AudioObject α) → Option (AudioObject α)
  | [] => none
  | b :: rest => if b.id = id then some b else scanGet id rest

/-- The method `AudioContext::isBuffer`. -/
def isBuffer (ctx : AudioContext β σ V) (id : Int) : Bool :=
  scanIs id ctx.buffers

/-- The method `AudioContext::getBuffer`. -/
def getBuffer (ctx : AudioContext β σ V) (id : Int) : Option (AudioBuffer β) :=
  scanGet id ctx.buffers

/-! ## Sources -/

/-- The method `AudioContext::createSource`. -/
def createSource (env : Env β σ V) (ctx : AudioContext β σ V) : Int × AudioContext β σ V :=
  if ctx.sources.length ≥ MAXSOURCES then
    (-1, ctx)
  else
    match ctx.sources_pool with
    | s :: rest => (s.id, { ctx with sources := s :: ctx.sources, sources_pool := rest })
    | [] =>
      let newas : AudioSource σ := { id := (ctx.sources.length : Int) + 1, payload := env.newSource }
      (newas.id, { ctx with sources := newas :: ctx.sources })

/-- The method `AudioContext::deleteSource`. -/
def deleteSource (ctx : AudioContext β σ V) (id : Int) : AudioContext β σ V :=
  { ctx with
    sources := (removeIf id ctx.sources ctx.sources_pool).1
    sources_pool := (removeIf id ctx.sources ctx.sources_pool).2 }

/-- The method `AudioContext::isSource`. -/
def isSource (ctx : AudioContext β σ V) (id : Int) : Bool :=
  scanIs id ctx.sources

/-- The method `AudioContext::getSource`. -/
def getSource (ctx : AudioContext β σ V) (id : Int) : Option (AudioSource σ) :=
  scanGet id ctx.sources

/-! ## Mixing -/

/-- The call `std::vector<uint8_t>::assign(n, v)` with `n` an `int` converted to `size_t`:
a negative `n` becomes a count above `max_size()` and the call throws, which is
`none`. -/
def assign (n : Int) (v : Nat) : Option (List Nat) :=
  if n < 0 then none else some (List.replicate n.toNat v)

/-- The loop over `sources` of `mixAllSources`, front to back. -/
def mixLoop (env : Env β σ V) (ticks : timespec) (outBytes outBitDepth outNbChannels
    outFrequency : Int) (outVolume : V) : List (AudioSource σ) → List Nat → List Nat
  | [], out => out
  | s :: rest, out =>
    mixLoop env ticks outBytes outBitDepth outNbChannels outFrequency outVolume rest
      (env.mixWith s ticks out outBytes outBitDepth outNbChannels outFrequency outVolume)

/-- The method `AudioContext::mixAllSources` (without the optional playback). `none` stands
for a call that does not return: the integer division `outBytes / outAlignSize`
traps (zero divisor, or `INT_MIN / -1`), or `assign` throws. -/
def mixAllSources (env : Env β σ V) (ctx : AudioContext β σ V) (ticks : timespec) :
    Option (AudioContext β σ V) :=
  if ticks.tv_sec < 0 then
    some ctx
  else
    let r := ticksToBytes ctx.samples_frac ticks ctx.outAlignSize ctx.outFrequency
    let outBytes := r.1
    if ctx.outAlignSize = 0 ∨ (outBytes = -2147483648 ∧ ctx.outAlignSize = -1) then
      none
    else
      let outNbSamples := Int.tdiv outBytes ctx.outAlignSize
      let filled8 : Option (List Nat) :=
        if ctx.outBitDepth = 8 then assign outBytes 0x80 else some ctx.outSamples
      match filled8 with
      | none => none
      | some out8 =>
        let filled16 : Option (List Nat) :=
          if ctx.outBitDepth = 16 then assign outBytes 0 else some out8
        match filled16 with
        | none => none
        | some out16 =>
          some { ctx with
            samples_frac := r.2
            outBytes := outBytes
            outNbSamples := outNbSamples
            outSamples := mixLoop env ticks outBytes ctx.outBitDepth ctx.outNbChannels
              ctx.outFrequency ctx.outVolume ctx.sources out16 }

/-! ## Sequences of calls -/

/-- A call on the context. -/
inductive Op where
  | createBuffer
  | deleteBuffer (id : Int)
  | isBuffer (id : Int)
  | getBuffer (id : Int)
  | createSource
  | deleteSource (id : Int)
  | isSource (id : Int)
  | getSource (id : Int)
  | mixAllSources (ticks : timespec)
deriving DecidableEq, Repr

/-- The context after one call; `none` when the call does not return. -/
def step (env : Env β σ V) (ctx : AudioContext β σ V) : Op → Option (AudioContext β σ V)
  | .createBuffer => some (createBuffer env ctx).2
  | .deleteBuffer id => some (deleteBuffer ctx id)
  | .isBuffer _ => some ctx
  | .getBuffer _ => some ctx
  | .createSource => some (createSource env ctx).2
  | .deleteSource id => some (deleteSource ctx id)
  | .isSource _ => some ctx
  | .getSource _ => some ctx
  | .mixAllSources ticks => mixAllSources env ctx ticks

/-- The context after a sequence of calls, first call first. -/
def run (env : Env β σ V) : List Op → AudioContext β σ V → Option (AudioContext β σ V)
  | [], ctx => some ctx
  | op :: ops, ctx =>
    match step env ctx op with
    | none => none
    | some ctx' => run env ops ctx'

/-- A context with no object, active or recycled, of either kind. -/
def IsEmpty (ctx : AudioContext β σ V) : Prop :=
  ctx.buffers = [] ∧ ctx.buffers_pool = [] ∧ ctx.sources = [] ∧ ctx.sources_pool = []

/-- The contexts reached from an empty context by a sequence of calls. -/
def Reachable (env : Env β σ V) (ctx : AudioContext β σ V) : Prop :=
  ∃ init ops, IsEmpty init ∧ run env ops init = some ctx

/-- The ids `1, 2, ..., n`. -/
def idsUpTo (n : Nat) : List Int := List.map (fun (i : Nat) => (i : Int) + 1) (List.range n)

/-- Invariant of one pool of capacity `cap`: the objects of the active and the
recycle list together are at most `cap`, and their ids are `1, ..., n` in some
order, `n` being their number. -/
def PoolInv (cap : Nat) (active recycle : List (AudioObject α)) : Prop :=
  active.length + recycle.length ≤ cap ∧
    ((active ++ recycle).map (fun o => o.id)).Perm (idsUpTo (active.length + recycle.length))

/-- Invariant of the context: both pools satisfy `PoolInv`. -/
def CtxInv (ctx : AudioContext β σ V) : Prop :=
  PoolInv MAXBUFFERS ctx.buffers ctx.buffers_pool ∧
    PoolInv MAXSOURCES ctx.sources ctx.sources_pool

/-! ## Concrete contexts used as instances -/

/-- An environment with trivial payloads whose `mixWith` leaves the output
buffer as it is. -/
def unitEnv : Env Unit Unit Unit :=
  { newBuffer := (), newSource := (), mixWith := fun _ _ out _ _ _ _ _ => out }

/-- An empty context configured for 16-bit stereo output at 44100 Hz. -/
def emptyCtx : AudioContext Unit Unit Unit :=
  { outVolume := (), outBitDepth := 16, outNbChannels := 2, outFrequency := 44100,
    outAlignSize := 4, outBytes := 0, outNbSamples := 0, outSamples := [],
    buffers := [], buffers_pool := [], sources := [], sources_pool := [], samples_frac := 0 }

/-- The context after two buffers and two sources were created and the first
buffer and the first source deleted. -/
def sampleCtx : AudioContext Unit Unit Unit :=
  { emptyCtx with
    buffers := [{ id := 2, payload := () }], buffers_pool := [{ id := 1, payload := () }],
    sources := [{ id := 2, payload := () }], sources_pool := [{ id := 1, payload := () }] }

/-- The calls that lead from `emptyCtx` to `sampleCtx`. -/
def sampleOps : List Op :=
  [.createBuffer, .createBuffer, .deleteBuffer 1, .createSource, .createSource, .deleteSource 1]

/-- The ids `n, n - 1, ..., 1` as objects: the active list after `n` creations
from an empty pool. -/
def countdown : Nat → List (AudioObject Unit)
  | 0 => []
  | n + 1 => { id := (n : Int) + 1, payload := () } :: countdown n

/-- The context after 2048 buffers and 256 sources were created. -/
def fullCtx : AudioContext Unit Unit Unit :=
  { emptyCtx with buffers := countdown 2048, sources := countdown 256 }

/-- The calls that lead from `emptyCtx` to `fullCtx`. -/
def fullOps : List Op :=
  List.replicate 2048 Op.createBuffer ++ List.replicate 256 Op.createSource

/-! ## The create rule in the words of the specification -/

/-- The specified `create` for buffers: if the recycle list holds an object, pop
its front and reactivate it, returning the id it has; else if the active count
is below the capacity, allocate a new object with id (active count) + 1; else
fail with the sentinel. -/
def createBufferSpec (env : Env β σ V) (ctx : AudioContext β σ V) : Int × AudioContext β σ V :=
  match ctx.buffers_pool with
  | b :: rest => (b.id, { ctx with buffers := b :: ctx.buffers, buffers_pool := rest })
  | [] =>
    if ctx.buffers.length < MAXBUFFERS then
      ((ctx.buffers.length : Int) + 1,
        { ctx with buffers := { id := (ctx.buffers.length : Int) + 1,
                                payload := env.newBuffer } :: ctx.buffers })
    else
      (-1, ctx)

/-- The specified `create` for sources, as `createBufferSpec`. -/
def createSourceSpec (env : Env β σ V) (ctx : AudioContext β σ V) : Int × AudioContext β σ V :=
  match ctx.sources_pool with
  | s :: rest => (s.id, { ctx with sources := s :: ctx.sources, sources_pool := rest })
  | [] =>
    if ctx.sources.length < MAXSOURCES then
      ((ctx.sources.length : Int) + 1,
        { ctx with sources := { id := (ctx.sources.length : Int) + 1,
                                payload := env.newSource } :: ctx.sources })
    else
      (-1, ctx)

/-- The context `sampleCtx` after mixing 0.1 ms: 4 samples, 16 bytes of silence,
and 0.41 of a sample carried in the accumulator. -/
def mixedCtx : AudioContext Unit Unit Unit :=
  { sampleCtx with
    outBytes := 16, outNbSamples := 4, outSamples := List.replicate 16 0,
    samples_frac := 410000000 }

/-- The calls that lead from `emptyCtx` to `mixedCtx`. -/
def mixedOps : List Op :=
  sampleOps ++ [.mixAllSources { tv_sec := 0, tv_nsec := 100000 }, .isBuffer 2, .getSource 2]

/-! ## Quantities the conversion is specified with -/

/-- The length of an interval in nanoseconds, `seconds * 1e9 + nanoseconds`. -/
def nsOf (t : timespec) : Int := t.tv_sec * 1000000000 + t.tv_nsec

/-- The sample count of one call as `mixAllSources` derives it,
`outNbSamples = outBytes / outAlignSize`, with the new accumulator. -/
def nbSamples (samples_frac : Int) (ticks : timespec) (alignSize frequency : Int) : Int × Int :=
  (Int.tdiv (ticksToBytes samples_frac ticks alignSize frequency).1 alignSize,
    (ticksToBytes samples_frac ticks alignSize frequency).2)

/-- The result of `k` successive conversions of the interval `d`, the accumulator carried from
one to the next: the sum of the values of `samples` and the last accumulator. -/
def samplesRepeated (frequency : Int) (d : timespec) : Nat → Int → Int × Int
  | 0, acc => (0, acc)
  | k + 1, acc =>
    ((ticksToSamples acc d frequency).1 +
        (samplesRepeated frequency d k (ticksToSamples acc d frequency).2).1,
      (samplesRepeated frequency d k (ticksToSamples acc d frequency).2).2)

/-- The result of `k` successive conversions of the interval `d` as `mixAllSources` makes
them: the sum of the sample counts `outBytes / outAlignSize` and the last
accumulator. -/
def nbSamplesRepeated (alignSize frequency : Int) (d : timespec) : Nat → Int → Int × Int
  | 0, acc => (0, acc)
  | k + 1, acc =>
    ((nbSamples acc d alignSize frequency).1 +
        (nbSamplesRepeated alignSize frequency d k (nbSamples acc d alignSize frequency).2).1,
      (nbSamplesRepeated alignSize frequency d k (nbSamples acc d alignSize frequency).2).2)

/-! ## Initialisation and silence -/

/-- The members of the global `shared_config` that `init` reads. Its declaration
is in `shared/SharedConfig.h`, outside the files embedded here, so the three
values are taken as integers given from outside. -/
structure SharedConfig where
  audio_bitdepth : Int
  audio_channels : Int
  audio_frequency : Int
deriving DecidableEq, Repr

/-- The method `AudioContext::init`: the output format is copied from the shared
configuration and `outAlignSize = outNbChannels * outBitDepth / 8`, the product
of two `int` reduced to 32 bits and the division an `int` division. -/
def init (shared_config : SharedConfig) (ctx : AudioContext β σ V) : AudioContext β σ V :=
  { ctx with
    outBitDepth := shared_config.audio_bitdepth
    outNbChannels := shared_config.audio_channels
    outFrequency := shared_config.audio_frequency
    outAlignSize :=
      Int.tdiv (toI32 (shared_config.audio_channels * shared_config.audio_bitdepth)) 8 }

/-- The silence pattern of the specification: `0x80` for unsigned 8-bit samples,
`0x00` for signed 16-bit samples. -/
def silence (outBitDepth : Int) : Nat :=
  if outBitDepth = 8 then 0x80 else 0x00

/-- The shared configuration of 16-bit stereo output at 44100 Hz. -/
def stereo16 : SharedConfig :=
  { audio_bitdepth := 16, audio_channels := 2, audio_frequency := 44100 }

/-- The property of `mixWith` that it returns a buffer of the length it was
given: in the C++ code it writes through a raw pointer into the vector and
cannot resize it. -/
def KeepsLength (env : Env β σ V) : Prop :=
  ∀ (s : AudioSource σ) (ticks : timespec) (out : List Nat) (outBytes outBitDepth outNbChannels
    outFrequency : Int) (outVolume : V),
    (env.mixWith s ticks out outBytes outBitDepth outNbChannels outFrequency outVolume).length
      = out.length

/-- An environment whose `mixWith` overwrites every byte of the buffer with 1. -/
def markEnv : Env Unit Unit Unit :=
  { newBuffer := (), newSource := (),
    mixWith := fun _ _ out _ _ _ _ _ => out.map (fun _ => 1) }

/-- The context `emptyCtx` after one source was created, 0.1 ms were mixed with
`markEnv` and the source was deleted: 16 bytes, all 1, are in the buffer. -/
def staleCtx : AudioContext Unit Unit Unit :=
  { emptyCtx with
    outBytes := 16, outNbSamples := 4, outSamples := List.replicate 16 1,
    sources_pool := [{ id := 1, payload := () }], samples_frac := 410000000 }

/-- The calls that lead from `emptyCtx` to `staleCtx`. -/
def staleOps : List Op :=
  [.createSource, .mixAllSources { tv_sec := 0, tv_nsec := 100000 }, .deleteSource 1]

/-- The context `emptyCtx` after one source was created and 0.1 ms were mixed
with `markEnv`: source 1 is active and 16 bytes, all 1, are in the buffer. -/
def markedCtx : AudioContext Unit Unit Unit :=
  { emptyCtx with
    outBytes := 16, outNbSamples := 4, outSamples := List.replicate 16 1,
    sources := [{ id := 1, payload := () }], samples_frac := 410000000 }

/-- The calls that lead from `emptyCtx` to `markedCtx`. -/
def markedOps : List Op :=
  [.createSource, .mixAllSources { tv_sec := 0, tv_nsec := 100000 }]

/-- An empty context whose output bit depth is 32, with 8 bytes a frame. -/
def depth32Ctx : AudioContext Unit Unit Unit :=
  { emptyCtx with outBitDepth := 32, outAlignSize := 8 }

/-- The context `emptyCtx` after 0.1 ms were mixed: 16 bytes of silence. -/
def silentCtx : AudioContext Unit Unit Unit :=
  { emptyCtx with
    outBytes := 16, outNbSamples := 4, outSamples := List.replicate 16 0,
    samples_frac := 410000000 }

/-- An empty context configured for 8-bit mono output at 44100 Hz. -/
def emptyCtx8 : AudioContext Unit Unit Unit :=
  { emptyCtx with outBitDepth := 8, outNbChannels := 1, outAlignSize := 1 }

/-- The conversion of the specification over unbounded integers: nanoseconds
`seconds * 1e9 + nanoseconds`, samples `floor (nanoseconds * frequency / 1e9)`,
the remainder added to the accumulator, one sample carried when the accumulator
reaches `5e8`, bytes `samples * alignSize`. -/
def ticksToBytesExact (samples_frac : Int) (ticks : timespec) (alignSize frequency : Int) :
    Int × Int :=
  let nsecs : Int := ticks.tv_sec * 1000000000 + ticks.tv_nsec
  let samples : Int := nsecs * frequency / 1000000000
  let frac : Int := samples_frac + nsecs * frequency % 1000000000
  if frac ≥ 500000000 then
    ((samples + 1) * alignSize, frac - 1000000000)
  else
    (samples * alignSize, frac)

/-- Successive conversions of the intervals of a list, first interval first, the
accumulator carried from one to the next: the sum of the values of `samples` and
the last accumulator. -/
def samplesSeq (frequency : Int) : List timespec → Int → Int × Int
  | [], acc => (0, acc)
  | t :: ts, acc =>
    ((ticksToSamples acc t frequency).1 +
        (samplesSeq frequency ts (ticksToSamples acc t frequency).2).1,
      (samplesSeq frequency ts (ticksToSamples acc t frequency).2).2)

/-- Successive conversions of the intervals of a list as `mixAllSources` makes
them: the sum of the sample counts `outBytes / outAlignSize` and the last
accumulator. -/
def nbSamplesSeq (alignSize frequency : Int) : List timespec → Int → Int × Int
  | [], acc => (0, acc)
  | t :: ts, acc =>
    ((nbSamples acc t alignSize frequency).1 +
        (nbSamplesSeq alignSize frequency ts (nbSamples acc t alignSize frequency).2).1,
      (nbSamplesSeq alignSize frequency ts (nbSamples acc t alignSize frequency).2).2)

/-- The total length in nanoseconds of the intervals of a list. -/
def totalNs (ts : List timespec) : Int := (ts.map nsOf).sum

/-- The calls that concern buffers. -/
def Op.onBuffers : Op → Bool
  | .createBuffer => true
  | .deleteBuffer _ => true
  | .isBuffer _ => true
  | .getBuffer _ => true
  | _ => false

/-- The calls that concern sources. -/
def Op.onSources : Op → Bool
  | .createSource => true
  | .deleteSource _ => true
  | .isSource _ => true
  | .getSource _ => true
  | _ => false

/-! ## Linking of a function (`hook.cpp`) -/

/-- The dynamic-linker functions that `link_function` calls, taken as given
functions. Pointers and handles are addresses, 0 being `nullptr`; `find_lib`
returns the path of a matching library loaded by the game, or the empty string. -/
structure DlEnv where
  dlvsym_next : String → String → Nat
  dlsym_next : String → Nat
  find_lib : String → String
  dlopen : String → Nat
  dlsym : Nat → String → Nat

/-- A call made to the dynamic linker. -/
inductive DlCall where
  | dlvsym_next (source version : String)
  | dlsym_next (source : String)
  | find_lib (library : String)
  | dlopen (libpath : String)
  | dlsym (handle : Nat) (source : String)
deriving DecidableEq, Repr

/-- The lookup in the global namespace: `dlvsym(RTLD_NEXT, source, version)` if a
version is given, else `dlsym(RTLD_NEXT, source)`. -/
def globalLookup (dl : DlEnv) (source : String) (version : Option String) : Nat :=
  match version with
  | some v => dl.dlvsym_next source v
  | none => dl.dlsym_next source

/-- The call that `globalLookup` makes. -/
def globalCall (source : String) (version : Option String) : DlCall :=
  match version with
  | some v => DlCall.dlvsym_next source v
  | none => DlCall.dlsym_next source

/-- The lookup in a matching library: the library path is searched, the library
opened and the symbol looked up in it; 0 when one of the three fails. -/
def libraryLookup (dl : DlEnv) (library source : String) : Nat :=
  if dl.find_lib library = "" then 0
  else if dl.dlopen (dl.find_lib library) = 0 then 0
  else dl.dlsym (dl.dlopen (dl.find_lib library)) source

/-- The function `link_function(function, source, library, version)`: the
`bool` returned, the value of `*function` on return, and the calls made to the
dynamic linker in their order. `library` and `version` may be `nullptr`, which
is `none`. The bookkeeping calls `dlhook_init`, `dlenter`, `dlleave` and the log
messages are left out. -/
def link_function (dl : DlEnv) (function : Nat) (source : String)
    (library version : Option String) : Bool × Nat × List DlCall :=
  if function ≠ 0 then
    (true, function, [])
  else
    let function :=
      match version with
      | some v => dl.dlvsym_next source v
      | none => dl.dlsym_next source
    if function ≠ 0 then
      (true, function, [globalCall source version])
    else
      match library with
      | some lib =>
        let libpath := dl.find_lib lib
        if libpath ≠ "" then
          let handle := dl.dlopen libpath
          if handle ≠ 0 then
            let function := dl.dlsym handle source
            if function ≠ 0 then
              (true, function, [globalCall source version, DlCall.find_lib lib,
                DlCall.dlopen libpath, DlCall.dlsym handle source])
            else
              (false, 0, [globalCall source version, DlCall.find_lib lib,
                DlCall.dlopen libpath, DlCall.dlsym handle source])
          else
            (false, 0, [globalCall source version, DlCall.find_lib lib, DlCall.dlopen libpath])
        else
          (false, 0, [globalCall source version, DlCall.find_lib lib])
      | none => (false, 0, [globalCall source version])

/-- A dynamic linker that knows `alSourcePlay` only in the library `openal`,
found at `/usr/lib/libopenal.so` and opened under the handle 7. -/
def sampleDl : DlEnv :=
  { dlvsym_next := fun _ _ => 0
    dlsym_next := fun src => if src = "malloc" then 100 else 0
    find_lib := fun lib => if lib = "openal" then "/usr/lib/libopenal.so" else ""
    dlopen := fun path => if path = "/usr/lib/libopenal.so" then 7 else 0
    dlsym := fun h src => if h = 7 ∧ src = "alSourcePlay" then 200 else 0 }

/-! ## Lemmas on the list scans -/

theorem removeIf_eq (id : Int) (l pool : List (AudioObject α)) :
    removeIf id l pool =
      (l.filter (fun b => decide (b.id ≠ id)),
        (l.filter (fun b => decide (b.id = id))).reverse ++ pool) := by
  induction l generalizing pool with
  | nil => simp [removeIf]
  | cons b rest ih =>
    by_cases h : b.id = id
    · simp [removeIf, h, ih]
    · simp [removeIf, h, ih]

theorem removeIf_of_not_mem (id : Int) (l pool : List (AudioObject α))
    (h : ∀ b ∈ l, b.id ≠ id) : removeIf id l pool = (l, pool) := by
  rw [removeIf_eq]
  have h1 : l.filter (fun b => decide (b.id ≠ id)) = l :=
    List.filter_eq_self.mpr (fun b hb => by simpa using h b hb)
  have h2 : l.filter (fun b => decide (b.id = id)) = [] :=
    List.filter_eq_nil_iff.mpr (fun b hb => by simpa using h b hb)
  rw [h1, h2]; rfl

theorem scanIs_iff (id : Int) (l : List (AudioObject α)) :
    scanIs id l = true ↔ ∃ b ∈ l, b.id = id := by
  induction l with
  | nil => simp [scanIs]
  | cons b rest ih =>
    by_cases h : b.id = id
    · simp [scanIs, h]
    · simp [scanIs, h, ih]

theorem scanGet_some (id : Int) (l : List (AudioObject α)) (b : AudioObject α)
    (h : scanGet id l = some b) : b ∈ l ∧ b.id = id := by
  induction l with
  | nil => simp [scanGet] at h
  | cons c rest ih =>
    by_cases hc : c.id = id
    · simp [scanGet, hc] at h
      subst h
      exact ⟨List.mem_cons_self _ _, hc⟩
    · simp [scanGet, hc] at h
      exact ⟨List.mem_cons_of_mem _ (ih h).1, (ih h).2⟩

theorem scanGet_isSome (id : Int) (l : List (AudioObject α)) :
    (scanGet id l).isSome = scanIs id l := by
  induction l with
  | nil => simp [scanGet, scanIs]
  | cons c rest ih =>
    by_cases hc : c.id = id
    · simp [scanGet, scanIs, hc]
    · simp [scanGet, scanIs, hc, ih]

/-! ## Lemmas on the pool invariant -/

theorem idsUpTo_length (n : Nat) : (idsUpTo n).length = n := by
  simp [idsUpTo]

theorem idsUpTo_succ (n : Nat) : idsUpTo (n + 1) = idsUpTo n ++ [(n : Int) + 1] := by
  simp [idsUpTo, List.range_succ]

theorem mem_idsUpTo (n : Nat) (x : Int) : x ∈ idsUpTo n ↔ 1 ≤ x ∧ x ≤ n := by
  constructor
  · intro h
    simp only [idsUpTo, List.mem_map, List.mem_range] at h
    obtain ⟨i, hi, rfl⟩ := h
    omega
  · rintro ⟨h1, h2⟩
    simp only [idsUpTo, List.mem_map, List.mem_range]
    exact ⟨(x - 1).toNat, by omega, by omega⟩

theorem idsUpTo_nodup (n : Nat) : (idsUpTo n).Nodup := by
  unfold idsUpTo
  refine List.Nodup.map ?_ (List.nodup_range n)
  intro a b h
  simp only at h
  omega

theorem poolInv_nil (cap : Nat) : PoolInv cap ([] : List (AudioObject α)) [] := by
  simp [PoolInv, idsUpTo]

theorem poolInv_recycle (cap : Nat) (active rest : List (AudioObject α)) (o : AudioObject α)
    (h : PoolInv cap active (o :: rest)) : PoolInv cap (o :: active) rest := by
  obtain ⟨h1, h2⟩ := h
  have hl : (o :: active).length + rest.length = active.length + (o :: rest).length := by
    simp only [List.length_cons]; omega
  refine ⟨by omega, ?_⟩
  rw [hl]
  refine List.Perm.trans ?_ h2
  refine List.Perm.map _ ?_
  exact (List.perm_middle).symm

theorem poolInv_new (cap : Nat) (active : List (AudioObject α)) (x : α)
    (h : PoolInv cap active []) (hlt : active.length < cap) :
    PoolInv cap (({ id := (active.length : Int) + 1, payload := x } : AudioObject α) :: active)
      [] := by
  obtain ⟨_, h2⟩ := h
  simp only [List.append_nil, List.length_nil, Nat.add_zero] at h2
  refine ⟨by simp only [List.length_cons, List.length_nil]; omega, ?_⟩
  simp only [List.append_nil, List.length_nil, Nat.add_zero, List.length_cons, List.map_cons]
  rw [idsUpTo_succ]
  refine List.Perm.trans (List.Perm.cons _ h2) ?_
  exact (List.perm_append_singleton _ _).symm

theorem removeIf_perm (id : Int) (l pool : List (AudioObject α)) :
    ((removeIf id l pool).1 ++ (removeIf id l pool).2).Perm (l ++ pool) := by
  induction l generalizing pool with
  | nil => simp [removeIf]
  | cons b rest ih =>
    by_cases h : b.id = id
    · simp only [removeIf, h, if_true]
      exact (ih (b :: pool)).trans List.perm_middle
    · simp only [removeIf, h, if_false, List.cons_append]
      exact List.Perm.cons _ (ih pool)

theorem poolInv_removeIf (cap : Nat) (id : Int) (active recycle : List (AudioObject α))
    (h : PoolInv cap active recycle) :
    PoolInv cap (removeIf id active recycle).1 (removeIf id active recycle).2 := by
  obtain ⟨h1, h2⟩ := h
  have hp := removeIf_perm id active recycle
  have hl : (removeIf id active recycle).1.length + (removeIf id active recycle).2.length
      = active.length + recycle.length := by
    have := hp.length_eq
    simpa only [List.length_append] using this
  refine ⟨by omega, ?_⟩
  rw [hl]
  exact (List.Perm.map _ hp).trans h2

theorem poolInv_nodup_all (cap : Nat) (active recycle : List (AudioObject α))
    (h : PoolInv cap active recycle) : ((active ++ recycle).map (fun o => o.id)).Nodup :=
  (h.2.nodup_iff).mpr (idsUpTo_nodup _)

theorem poolInv_nodup_active (cap : Nat) (active recycle : List (AudioObject α))
    (h : PoolInv cap active recycle) : (active.map (fun o => o.id)).Nodup := by
  have := poolInv_nodup_all cap active recycle h
  rw [List.map_append] at this
  exact (List.nodup_append.mp this).1

theorem poolInv_mem_range (cap : Nat) (active recycle : List (AudioObject α))
    (h : PoolInv cap active recycle) (b : AudioObject α) (hb : b ∈ active ++ recycle) :
    1 ≤ b.id ∧ b.id ≤ cap := by
  have hm : b.id ∈ (active ++ recycle).map (fun o => o.id) := List.mem_map_of_mem _ hb
  have := (mem_idsUpTo _ _).mp ((h.2.mem_iff).mp hm)
  have h1 := h.1
  omega

/-! ## The invariant along sequences of calls -/

theorem createBuffer_full (env : Env β σ V) (ctx : AudioContext β σ V)
    (h : MAXBUFFERS ≤ ctx.buffers.length) : createBuffer env ctx = (-1, ctx) := by
  unfold createBuffer
  rw [if_pos h]

theorem createBuffer_recycle (env : Env β σ V) (ctx : AudioContext β σ V)
    (b : AudioBuffer β) (rest : List (AudioBuffer β))
    (h : ctx.buffers.length < MAXBUFFERS) (hp : ctx.buffers_pool = b :: rest) :
    createBuffer env ctx =
      (b.id, { ctx with buffers := b :: ctx.buffers, buffers_pool := rest }) := by
  unfold createBuffer
  rw [if_neg (by omega), hp]

theorem createBuffer_new (env : Env β σ V) (ctx : AudioContext β σ V)
    (h : ctx.buffers.length < MAXBUFFERS) (hp : ctx.buffers_pool = []) :
    createBuffer env ctx =
      ((ctx.buffers.length : Int) + 1,
        { ctx with buffers := { id := (ctx.buffers.length : Int) + 1,
                                payload := env.newBuffer } :: ctx.buffers }) := by
  unfold createBuffer
  rw [if_neg (by omega), hp]

theorem createSource_full (env : Env β σ V) (ctx : AudioContext β σ V)
    (h : MAXSOURCES ≤ ctx.sources.length) : createSource env ctx = (-1, ctx) := by
  unfold createSource
  rw [if_pos h]

theorem createSource_recycle (env : Env β σ V) (ctx : AudioContext β σ V)
    (s : AudioSource σ) (rest : List (AudioSource σ))
    (h : ctx.sources.length < MAXSOURCES) (hp : ctx.sources_pool = s :: rest) :
    createSource env ctx =
      (s.id, { ctx with sources := s :: ctx.sources, sources_pool := rest }) := by
  unfold createSource
  rw [if_neg (by omega), hp]

theorem createSource_new (env : Env β σ V) (ctx : AudioContext β σ V)
    (h : ctx.sources.length < MAXSOURCES) (hp : ctx.sources_pool = []) :
    createSource env ctx =
      ((ctx.sources.length : Int) + 1,
        { ctx with sources := { id := (ctx.sources.length : Int) + 1,
                                payload := env.newSource } :: ctx.sources }) := by
  unfold createSource
  rw [if_neg (by omega), hp]

theorem ctxInv_createBuffer (env : Env β σ V) (ctx : AudioContext β σ V) (h : CtxInv ctx) :
    CtxInv (createBuffer env ctx).2 := by
  by_cases hlen : MAXBUFFERS ≤ ctx.buffers.length
  · rw [createBuffer_full env ctx hlen]; exact h
  · have hlt : ctx.buffers.length < MAXBUFFERS := by omega
    cases hp : ctx.buffers_pool with
    | nil =>
      rw [createBuffer_new env ctx hlt hp]
      have h1 := h.1
      rw [hp] at h1
      refine ⟨?_, h.2⟩
      show PoolInv MAXBUFFERS (_ :: ctx.buffers) ctx.buffers_pool
      rw [hp]
      exact poolInv_new _ _ _ h1 hlt
    | cons b rest =>
      rw [createBuffer_recycle env ctx b rest hlt hp]
      have h1 := h.1
      rw [hp] at h1
      exact ⟨poolInv_recycle _ _ _ _ h1, h.2⟩

theorem ctxInv_createSource (env : Env β σ V) (ctx : AudioContext β σ V) (h : CtxInv ctx) :
    CtxInv (createSource env ctx).2 := by
  by_cases hlen : MAXSOURCES ≤ ctx.sources.length
  · rw [createSource_full env ctx hlen]; exact h
  · have hlt : ctx.sources.length < MAXSOURCES := by omega
    cases hp : ctx.sources_pool with
    | nil =>
      rw [createSource_new env ctx hlt hp]
      have h2 := h.2
      rw [hp] at h2
      refine ⟨h.1, ?_⟩
      show PoolInv MAXSOURCES (_ :: ctx.sources) ctx.sources_pool
      rw [hp]
      exact poolInv_new _ _ _ h2 hlt
    | cons b rest =>
      rw [createSource_recycle env ctx b rest hlt hp]
      have h2 := h.2
      rw [hp] at h2
      exact ⟨h.1, poolInv_recycle _ _ _ _ h2⟩

theorem ctxInv_deleteBuffer (ctx : AudioContext β σ V) (id : Int) (h : CtxInv ctx) :
    CtxInv (deleteBuffer ctx id) :=
  ⟨poolInv_removeIf _ _ _ _ h.1, h.2⟩

theorem ctxInv_deleteSource (ctx : AudioContext β σ V) (id : Int) (h : CtxInv ctx) :
    CtxInv (deleteSource ctx id) :=
  ⟨h.1, poolInv_removeIf _ _ _ _ h.2⟩

/-- The call `mixAllSources` leaves the four object lists as they are. -/
theorem mixAllSources_lists (env : Env β σ V) (ctx ctx' : AudioContext β σ V) (ticks : timespec)
    (h : mixAllSources env ctx ticks = some ctx') :
    ctx'.buffers = ctx.buffers ∧ ctx'.buffers_pool = ctx.buffers_pool ∧
      ctx'.sources = ctx.sources ∧ ctx'.sources_pool = ctx.sources_pool := by
  unfold mixAllSources at h
  split at h
  · cases h; exact ⟨rfl, rfl, rfl, rfl⟩
  · simp only at h
    split at h
    · cases h
    · split at h
      · cases h
      · split at h
        · cases h
        · cases h; exact ⟨rfl, rfl, rfl, rfl⟩

theorem ctxInv_mixAllSources (env : Env β σ V) (ctx ctx' : AudioContext β σ V)
    (ticks : timespec) (h : mixAllSources env ctx ticks = some ctx') (hi : CtxInv ctx) :
    CtxInv ctx' := by
  obtain ⟨h1, h2, h3, h4⟩ := mixAllSources_lists env ctx ctx' ticks h
  unfold CtxInv
  rw [h1, h2, h3, h4]
  exact hi

theorem ctxInv_step (env : Env β σ V) (ctx ctx' : AudioContext β σ V) (op : Op)
    (h : step env ctx op = some ctx') (hi : CtxInv ctx) : CtxInv ctx' := by
  cases op with
  | createBuffer => cases h; exact ctxInv_createBuffer env ctx hi
  | deleteBuffer id => cases h; exact ctxInv_deleteBuffer ctx id hi
  | isBuffer id => cases h; exact hi
  | getBuffer id => cases h; exact hi
  | createSource => cases h; exact ctxInv_createSource env ctx hi
  | deleteSource id => cases h; exact ctxInv_deleteSource ctx id hi
  | isSource id => cases h; exact hi
  | getSource id => cases h; exact hi
  | mixAllSources ticks => exact ctxInv_mixAllSources env ctx ctx' ticks h hi

theorem ctxInv_run (env : Env β σ V) (ops : List Op) (ctx ctx' : AudioContext β σ V)
    (h : run env ops ctx = some ctx') (hi : CtxInv ctx) : CtxInv ctx' := by
  induction ops generalizing ctx with
  | nil => cases h; exact hi
  | cons op ops ih =>
    simp only [run] at h
    split at h
    · cases h
    · rename_i mid hstep
      exact ih mid h (ctxInv_step env ctx mid op hstep hi)

theorem ctxInv_of_isEmpty (ctx : AudioContext β σ V) (h : IsEmpty ctx) : CtxInv ctx := by
  obtain ⟨h1, h2, h3, h4⟩ := h
  unfold CtxInv
  rw [h1, h2, h3, h4]
  exact ⟨poolInv_nil _, poolInv_nil _⟩

theorem ctxInv_of_reachable (env : Env β σ V) (ctx : AudioContext β σ V)
    (h : Reachable env ctx) : CtxInv ctx := by
  obtain ⟨init, ops, hinit, hrun⟩ := h
  exact ctxInv_run env ops init ctx hrun (ctxInv_of_isEmpty init hinit)

theorem sampleCtx_reachable : Reachable unitEnv sampleCtx :=
  ⟨emptyCtx, sampleOps, ⟨rfl, rfl, rfl, rfl⟩, by decide⟩

/-! ## Fresh identifiers -/

theorem poolInv_head_fresh (cap : Nat) (o : AudioObject α) (active recycle : List (AudioObject α))
    (h : PoolInv cap (o :: active) recycle) :
    1 ≤ o.id ∧ o.id ≤ cap ∧ ∀ b ∈ active, b.id ≠ o.id := by
  have hr := poolInv_mem_range cap _ _ h o (by simp)
  have hn := poolInv_nodup_active cap _ _ h
  rw [List.map_cons, List.nodup_cons] at hn
  refine ⟨hr.1, hr.2, ?_⟩
  intro b hb heq
  exact hn.1 (heq ▸ List.mem_map_of_mem (fun o => o.id) hb)

theorem createBuffer_head (env : Env β σ V) (ctx : AudioContext β σ V)
    (h : ctx.buffers.length < MAXBUFFERS) :
    ∃ o, (createBuffer env ctx).2.buffers = o :: ctx.buffers ∧ o.id = (createBuffer env ctx).1 := by
  cases hp : ctx.buffers_pool with
  | nil => rw [createBuffer_new env ctx h hp]; exact ⟨_, rfl, rfl⟩
  | cons b rest => rw [createBuffer_recycle env ctx b rest h hp]; exact ⟨_, rfl, rfl⟩

theorem createSource_head (env : Env β σ V) (ctx : AudioContext β σ V)
    (h : ctx.sources.length < MAXSOURCES) :
    ∃ o, (createSource env ctx).2.sources = o :: ctx.sources ∧ o.id = (createSource env ctx).1 := by
  cases hp : ctx.sources_pool with
  | nil => rw [createSource_new env ctx h hp]; exact ⟨_, rfl, rfl⟩
  | cons b rest => rw [createSource_recycle env ctx b rest h hp]; exact ⟨_, rfl, rfl⟩

theorem createBuffer_fresh (env : Env β σ V) (ctx : AudioContext β σ V) (hi : CtxInv ctx)
    (h : ctx.buffers.length < MAXBUFFERS) :
    1 ≤ (createBuffer env ctx).1 ∧ (createBuffer env ctx).1 ≤ 2048 ∧
      ∀ b ∈ ctx.buffers, b.id ≠ (createBuffer env ctx).1 := by
  obtain ⟨o, ho, hid⟩ := createBuffer_head env ctx h
  have h1 := (ctxInv_createBuffer env ctx hi).1
  rw [ho] at h1
  have := poolInv_head_fresh _ _ _ _ h1
  rw [hid] at this
  exact this

theorem createSource_fresh (env : Env β σ V) (ctx : AudioContext β σ V) (hi : CtxInv ctx)
    (h : ctx.sources.length < MAXSOURCES) :
    1 ≤ (createSource env ctx).1 ∧ (createSource env ctx).1 ≤ 256 ∧
      ∀ b ∈ ctx.sources, b.id ≠ (createSource env ctx).1 := by
  obtain ⟨o, ho, hid⟩ := createSource_head env ctx h
  have h1 := (ctxInv_createSource env ctx hi).2
  rw [ho] at h1
  have := poolInv_head_fresh _ _ _ _ h1
  rw [hid] at this
  exact this

/-- C1. In every context reached from an empty one by calls on the context, a
`createBuffer` that succeeds (it does so exactly when fewer than 2048 buffers
are active, and then its result is not `-1`) returns a value between 1 and 2048,
not 0, that is the id of the object it puts at the front of the active list and
differs from the id of every other active buffer; the ids of the active buffers
are pairwise distinct. Likewise for `createSource` with 256. -/
theorem create_returns_fresh_id (env : Env β σ V) (ctx : AudioContext β σ V)
    (h : Reachable env ctx) :
    (((createBuffer env ctx).1 ≠ -1 ↔ ctx.buffers.length < MAXBUFFERS) ∧
      ((createBuffer env ctx).1 ≠ -1 →
        1 ≤ (createBuffer env ctx).1 ∧ (createBuffer env ctx).1 ≤ 2048 ∧
        (createBuffer env ctx).1 ≠ 0 ∧
        (∃ o, (createBuffer env ctx).2.buffers = o :: ctx.buffers ∧
          o.id = (createBuffer env ctx).1) ∧
        ∀ b ∈ ctx.buffers, b.id ≠ (createBuffer env ctx).1) ∧
      (ctx.buffers.map (fun b => b.id)).Nodup) ∧
    (((createSource env ctx).1 ≠ -1 ↔ ctx.sources.length < MAXSOURCES) ∧
      ((createSource env ctx).1 ≠ -1 →
        1 ≤ (createSource env ctx).1 ∧ (createSource env ctx).1 ≤ 256 ∧
        (createSource env ctx).1 ≠ 0 ∧
        (∃ o, (createSource env ctx).2.sources = o :: ctx.sources ∧
          o.id = (createSource env ctx).1) ∧
        ∀ s ∈ ctx.sources, s.id ≠ (createSource env ctx).1) ∧
      (ctx.sources.map (fun s => s.id)).Nodup) := by
  have hi := ctxInv_of_reachable env ctx h
  have hb : (createBuffer env ctx).1 ≠ -1 ↔ ctx.buffers.length < MAXBUFFERS := by
    constructor
    · intro hne
      by_contra hge
      exact hne (by rw [createBuffer_full env ctx (by omega)])
    · intro hlt
      have := (createBuffer_fresh env ctx hi hlt).1
      omega
  have hs : (createSource env ctx).1 ≠ -1 ↔ ctx.sources.length < MAXSOURCES := by
    constructor
    · intro hne
      by_contra hge
      exact hne (by rw [createSource_full env ctx (by omega)])
    · intro hlt
      have := (createSource_fresh env ctx hi hlt).1
      omega
  refine ⟨⟨hb, ?_, poolInv_nodup_active _ _ _ hi.1⟩, ⟨hs, ?_, poolInv_nodup_active _ _ _ hi.2⟩⟩
  · intro hne
    have hlt := hb.mp hne
    obtain ⟨h1, h2, h3⟩ := createBuffer_fresh env ctx hi hlt
    exact ⟨h1, h2, by omega, createBuffer_head env ctx hlt, h3⟩
  · intro hne
    have hlt := hs.mp hne
    obtain ⟨h1, h2, h3⟩ := createSource_fresh env ctx hi hlt
    exact ⟨h1, h2, by omega, createSource_head env ctx hlt, h3⟩

/-- Instance of C1 at `sampleCtx`, where `createBuffer` and `createSource` both
return the recycled id 1. -/
theorem create_returns_fresh_id_witness :
    Reachable unitEnv sampleCtx ∧
      (createBuffer unitEnv sampleCtx).1 = 1 ∧ (createSource unitEnv sampleCtx).1 = 1 ∧
      (sampleCtx.buffers.map (fun b => b.id)).Nodup ∧
      ∀ b ∈ sampleCtx.buffers, b.id ≠ (createBuffer unitEnv sampleCtx).1 :=
  ⟨sampleCtx_reachable, by decide, by decide,
    (create_returns_fresh_id unitEnv sampleCtx sampleCtx_reachable).1.2.2,
    ((create_returns_fresh_id unitEnv sampleCtx sampleCtx_reachable).1.2.1 (by decide)).2.2.2.2⟩

/-! ## The create rule -/

theorem createBuffer_eq_spec (env : Env β σ V) (ctx : AudioContext β σ V) (hi : CtxInv ctx) :
    createBuffer env ctx = createBufferSpec env ctx := by
  have hle := hi.1.1
  unfold createBufferSpec
  cases hp : ctx.buffers_pool with
  | nil =>
    by_cases hlt : ctx.buffers.length < MAXBUFFERS
    · simp only [hlt, if_true]
      rw [createBuffer_new env ctx hlt hp, hp]
    · simp only [hlt, if_false]
      exact createBuffer_full env ctx (by omega)
  | cons b rest =>
    rw [hp, List.length_cons] at hle
    exact createBuffer_recycle env ctx b rest (by omega) hp

theorem createSource_eq_spec (env : Env β σ V) (ctx : AudioContext β σ V) (hi : CtxInv ctx) :
    createSource env ctx = createSourceSpec env ctx := by
  have hle := hi.2.1
  unfold createSourceSpec
  cases hp : ctx.sources_pool with
  | nil =>
    by_cases hlt : ctx.sources.length < MAXSOURCES
    · simp only [hlt, if_true]
      rw [createSource_new env ctx hlt hp, hp]
    · simp only [hlt, if_false]
      exact createSource_full env ctx (by omega)
  | cons b rest =>
    rw [hp, List.length_cons] at hle
    exact createSource_recycle env ctx b rest (by omega) hp

/-- C2. In every context reached from an empty one, `createBuffer` and
`createSource` agree (result and context afterwards) with the create rule as the
specification words it, recycle first, then allocate with id (active count) + 1
below the capacity, else fail; and whenever the recycle list is non-empty the
active count is below the capacity, so the capacity check that the code makes
first does not fire. -/
theorem create_refines_spec (env : Env β σ V) (ctx : AudioContext β σ V)
    (h : Reachable env ctx) :
    createBuffer env ctx = createBufferSpec env ctx ∧
      createSource env ctx = createSourceSpec env ctx ∧
      (ctx.buffers_pool ≠ [] → ctx.buffers.length < MAXBUFFERS) ∧
      (ctx.sources_pool ≠ [] → ctx.sources.length < MAXSOURCES) := by
  have hi := ctxInv_of_reachable env ctx h
  refine ⟨createBuffer_eq_spec env ctx hi, createSource_eq_spec env ctx hi, ?_, ?_⟩
  · intro hne
    have hle := hi.1.1
    have : 0 < ctx.buffers_pool.length := List.length_pos.mpr hne
    omega
  · intro hne
    have hle := hi.2.1
    have : 0 < ctx.sources_pool.length := List.length_pos.mpr hne
    omega

/-- Instance of C2 at `sampleCtx`, whose recycle lists are non-empty: the code
recycles id 1 as the specified rule does. -/
theorem create_refines_spec_witness :
    Reachable unitEnv sampleCtx ∧
      createBuffer unitEnv sampleCtx = createBufferSpec unitEnv sampleCtx ∧
      (createBufferSpec unitEnv sampleCtx).1 = 1 :=
  ⟨sampleCtx_reachable, (create_refines_spec unitEnv sampleCtx sampleCtx_reachable).1,
    by decide⟩

/-! ## Capacity -/

theorem run_append (env : Env β σ V) (ops ops' : List Op) (ctx : AudioContext β σ V) :
    run env (ops ++ ops') ctx = (run env ops ctx).bind (run env ops') := by
  induction ops generalizing ctx with
  | nil => rfl
  | cons op ops ih =>
    simp only [List.cons_append, run]
    cases step env ctx op with
    | none => rfl
    | some mid => exact ih mid

theorem countdown_length (n : Nat) : (countdown n).length = n := by
  induction n with
  | zero => rfl
  | succ n ih => simp [countdown, ih]

theorem run_createBuffers (k : Nat) (hk : k ≤ 2048) (c : AudioContext Unit Unit Unit)
    (h1 : c.buffers = []) (h2 : c.buffers_pool = []) :
    run unitEnv (List.replicate k Op.createBuffer) c = some { c with buffers := countdown k } := by
  induction k with
  | zero =>
    cases c
    simp only at h1
    subst h1
    rfl
  | succ k ih =>
    rw [List.replicate_succ', run_append, ih (by omega)]
    simp only [Option.some_bind, run, step]
    have hlen : ({ c with buffers := countdown k } : AudioContext Unit Unit Unit).buffers.length
        < MAXBUFFERS := by
      show (countdown k).length < MAXBUFFERS
      rw [countdown_length]; unfold MAXBUFFERS; omega
    rw [createBuffer_new unitEnv { c with buffers := countdown k } hlen h2]
    simp only [countdown_length]
    rfl

theorem run_createSources (k : Nat) (hk : k ≤ 256) (c : AudioContext Unit Unit Unit)
    (h1 : c.sources = []) (h2 : c.sources_pool = []) :
    run unitEnv (List.replicate k Op.createSource) c = some { c with sources := countdown k } := by
  induction k with
  | zero =>
    cases c
    simp only at h1
    subst h1
    rfl
  | succ k ih =>
    rw [List.replicate_succ', run_append, ih (by omega)]
    simp only [Option.some_bind, run, step]
    have hlen : ({ c with sources := countdown k } : AudioContext Unit Unit Unit).sources.length
        < MAXSOURCES := by
      show (countdown k).length < MAXSOURCES
      rw [countdown_length]; unfold MAXSOURCES; omega
    rw [createSource_new unitEnv { c with sources := countdown k } hlen h2]
    simp only [countdown_length]
    rfl

theorem fullCtx_reachable : Reachable unitEnv fullCtx := by
  refine ⟨emptyCtx, fullOps, ⟨rfl, rfl, rfl, rfl⟩, ?_⟩
  unfold fullOps
  rw [run_append, run_createBuffers 2048 (by omega) emptyCtx rfl rfl]
  simp only [Option.some_bind]
  rw [run_createSources 256 (by omega) _ rfl rfl]
  rfl

theorem mixedCtx_reachable : Reachable unitEnv mixedCtx :=
  ⟨emptyCtx, mixedOps, ⟨rfl, rfl, rfl, rfl⟩, by decide⟩

/-- C3. In every context with 2048 active buffers `createBuffer` returns `-1`
and the context afterwards is the context before (so the active and the recycle
list are as they were and nothing is allocated); likewise `createSource` in
every context with 256 active sources. -/
theorem create_at_capacity_fails (env : Env β σ V) (ctx : AudioContext β σ V) :
    (ctx.buffers.length = 2048 →
        (createBuffer env ctx).1 = -1 ∧ (createBuffer env ctx).2 = ctx) ∧
      (ctx.sources.length = 256 →
        (createSource env ctx).1 = -1 ∧ (createSource env ctx).2 = ctx) := by
  constructor
  · intro h
    rw [createBuffer_full env ctx (by rw [h]; exact Nat.le_refl _)]
    exact ⟨rfl, rfl⟩
  · intro h
    rw [createSource_full env ctx (by rw [h]; exact Nat.le_refl _)]
    exact ⟨rfl, rfl⟩

/-- Instance of C3 at `fullCtx`, the context after 2048 buffer creations and 256
source creations. -/
theorem create_at_capacity_fails_witness :
    Reachable unitEnv fullCtx ∧
      ((createBuffer unitEnv fullCtx).1 = -1 ∧ (createBuffer unitEnv fullCtx).2 = fullCtx) ∧
      ((createSource unitEnv fullCtx).1 = -1 ∧ (createSource unitEnv fullCtx).2 = fullCtx) :=
  ⟨fullCtx_reachable,
    (create_at_capacity_fails unitEnv fullCtx).1 (countdown_length 2048),
    (create_at_capacity_fails unitEnv fullCtx).2 (countdown_length 256)⟩

/-- C4. In every context reached from an empty one by a sequence of create,
delete, exists, lookup and mix calls, at most 2048 buffers and at most 256
sources are active. -/
theorem active_count_bounded (env : Env β σ V) (ctx : AudioContext β σ V)
    (h : Reachable env ctx) :
    ctx.buffers.length ≤ 2048 ∧ ctx.sources.length ≤ 256 := by
  have hi := ctxInv_of_reachable env ctx h
  have h1 := hi.1.1
  have h2 := hi.2.1
  simp only [MAXBUFFERS, MAXSOURCES] at h1 h2
  omega

/-- Instance of C4 at `mixedCtx`, reached by creations, deletions, a mix and two
queries. -/
theorem active_count_bounded_witness :
    Reachable unitEnv mixedCtx ∧ mixedCtx.buffers.length ≤ 2048 ∧
      mixedCtx.sources.length ≤ 256 :=
  ⟨mixedCtx_reachable, active_count_bounded unitEnv mixedCtx mixedCtx_reachable⟩

/-! ## Deletion -/

theorem removeIf_append_of_not_mem (id : Int) (l1 l2 pool : List (AudioObject α))
    (h : ∀ b ∈ l1, b.id ≠ id) :
    removeIf id (l1 ++ l2) pool = (l1 ++ (removeIf id l2 pool).1, (removeIf id l2 pool).2) := by
  induction l1 with
  | nil => rfl
  | cons c rest ih =>
    have hc : c.id ≠ id := h c (List.mem_cons_self _ _)
    have hrest : ∀ b ∈ rest, b.id ≠ id := fun b hb => h b (List.mem_cons_of_mem _ hb)
    have e : removeIf id (c :: rest ++ l2) pool =
        (c :: (removeIf id (rest ++ l2) pool).1, (removeIf id (rest ++ l2) pool).2) := by
      show removeIf id (c :: (rest ++ l2)) pool = _
      rw [removeIf, if_neg hc]
    rw [e, ih hrest]
    rfl

/-- Deleting the id of an object of a list without repeated ids takes exactly
that object out and pushes it on the front of the recycle list. -/
theorem removeIf_unique (l1 l2 pool : List (AudioObject α)) (b : AudioObject α)
    (hn : ((l1 ++ b :: l2).map (fun o => o.id)).Nodup) :
    removeIf b.id (l1 ++ b :: l2) pool = (l1 ++ l2, b :: pool) := by
  rw [List.map_append, List.map_cons, List.nodup_append] at hn
  obtain ⟨_, h2, hdisj⟩ := hn
  rw [List.nodup_cons] at h2
  have hl1 : ∀ c ∈ l1, c.id ≠ b.id := by
    intro c hc heq
    exact hdisj (List.mem_map_of_mem (fun o => o.id) hc) (heq ▸ List.mem_cons_self _ _)
  have hl2 : ∀ c ∈ l2, c.id ≠ b.id := by
    intro c hc heq
    exact h2.1 (heq ▸ List.mem_map_of_mem (fun o => o.id) hc)
  rw [removeIf_append_of_not_mem b.id l1 (b :: l2) pool hl1]
  simp only [removeIf, if_true]
  rw [removeIf_of_not_mem b.id l2 (b :: pool) hl2]

theorem deleteBuffer_of_not_mem (ctx : AudioContext β σ V) (id : Int)
    (h : ∀ b ∈ ctx.buffers, b.id ≠ id) : deleteBuffer ctx id = ctx := by
  unfold deleteBuffer
  rw [removeIf_of_not_mem id ctx.buffers ctx.buffers_pool h]

theorem deleteSource_of_not_mem (ctx : AudioContext β σ V) (id : Int)
    (h : ∀ s ∈ ctx.sources, s.id ≠ id) : deleteSource ctx id = ctx := by
  unfold deleteSource
  rw [removeIf_of_not_mem id ctx.sources ctx.sources_pool h]

theorem removeIf_fst_ne (id : Int) (l pool : List (AudioObject α)) :
    ∀ b ∈ (removeIf id l pool).1, b.id ≠ id := by
  intro b hb
  rw [removeIf_eq] at hb
  simpa using (List.mem_filter.mp hb).2

theorem deleteBuffer_of_mem (ctx : AudioContext β σ V) (hi : CtxInv ctx) (b : AudioBuffer β)
    (hb : b ∈ ctx.buffers) :
    ∃ l1 l2, ctx.buffers = l1 ++ b :: l2 ∧ (deleteBuffer ctx b.id).buffers = l1 ++ l2 ∧
      (deleteBuffer ctx b.id).buffers_pool = b :: ctx.buffers_pool := by
  obtain ⟨l1, l2, hl⟩ := List.append_of_mem hb
  have hn := poolInv_nodup_active _ _ _ hi.1
  rw [hl] at hn
  have hr := removeIf_unique l1 l2 ctx.buffers_pool b hn
  refine ⟨l1, l2, hl, ?_, ?_⟩
  · show (removeIf b.id ctx.buffers ctx.buffers_pool).1 = l1 ++ l2
    rw [hl, hr]
  · show (removeIf b.id ctx.buffers ctx.buffers_pool).2 = b :: ctx.buffers_pool
    rw [hl, hr]

theorem deleteSource_of_mem (ctx : AudioContext β σ V) (hi : CtxInv ctx) (s : AudioSource σ)
    (hs : s ∈ ctx.sources) :
    ∃ l1 l2, ctx.sources = l1 ++ s :: l2 ∧ (deleteSource ctx s.id).sources = l1 ++ l2 ∧
      (deleteSource ctx s.id).sources_pool = s :: ctx.sources_pool := by
  obtain ⟨l1, l2, hl⟩ := List.append_of_mem hs
  have hn := poolInv_nodup_active _ _ _ hi.2
  rw [hl] at hn
  have hr := removeIf_unique l1 l2 ctx.sources_pool s hn
  refine ⟨l1, l2, hl, ?_, ?_⟩
  · show (removeIf s.id ctx.sources ctx.sources_pool).1 = l1 ++ l2
    rw [hl, hr]
  · show (removeIf s.id ctx.sources ctx.sources_pool).2 = s :: ctx.sources_pool
    rw [hl, hr]

/-- C6. In every context, deleting an id that no active object has (0, a
negative id and an id deleted before are such ids) gives back the context
itself, active and recycle lists included; and deleting an id twice gives the
same context as deleting it once. For buffers and for sources. -/
theorem delete_unknown_is_noop (ctx : AudioContext β σ V) (id : Int) :
    ((∀ b ∈ ctx.buffers, b.id ≠ id) → deleteBuffer ctx id = ctx) ∧
      deleteBuffer (deleteBuffer ctx id) id = deleteBuffer ctx id ∧
      ((∀ s ∈ ctx.sources, s.id ≠ id) → deleteSource ctx id = ctx) ∧
      deleteSource (deleteSource ctx id) id = deleteSource ctx id := by
  refine ⟨deleteBuffer_of_not_mem ctx id, ?_, deleteSource_of_not_mem ctx id, ?_⟩
  · exact deleteBuffer_of_not_mem _ id (removeIf_fst_ne id ctx.buffers ctx.buffers_pool)
  · exact deleteSource_of_not_mem _ id (removeIf_fst_ne id ctx.sources ctx.sources_pool)

/-- Instance of C6 at `sampleCtx`: id 1 was deleted before, 0 and -3 were never
issued, and deleting them changes nothing. -/
theorem delete_unknown_is_noop_witness :
    deleteBuffer sampleCtx 1 = sampleCtx ∧ deleteBuffer sampleCtx 0 = sampleCtx ∧
      deleteSource sampleCtx (-3) = sampleCtx ∧
      deleteBuffer (deleteBuffer sampleCtx 2) 2 = deleteBuffer sampleCtx 2 :=
  ⟨(delete_unknown_is_noop sampleCtx 1).1 (by decide),
    (delete_unknown_is_noop sampleCtx 0).1 (by decide),
    (delete_unknown_is_noop sampleCtx (-3)).2.2.1 (by decide),
    (delete_unknown_is_noop sampleCtx 2).2.1⟩

/-- C7 as stated fails: in `sampleCtx` (active buffer 2, recycle list holding
buffer 1) `deleteBuffer 2` leaves the recycle list `[2, 1]`, the deleted object
in front, and not the old recycle list with the object appended, `[1, 2]`. -/
theorem delete_appends_counterexample :
    Reachable unitEnv sampleCtx ∧
      ({ id := 2, payload := () } : AudioBuffer Unit) ∈ sampleCtx.buffers ∧
      (deleteBuffer sampleCtx 2).buffers_pool =
        [{ id := 2, payload := () }, { id := 1, payload := () }] ∧
      (deleteBuffer sampleCtx 2).buffers_pool ≠
        sampleCtx.buffers_pool ++ [{ id := 2, payload := () }] :=
  ⟨sampleCtx_reachable, by decide, by decide, by decide⟩

/-- C7, amended. In every context reached from an empty one, deleting the id of
an active object `b` takes exactly `b` out of the active list, the objects before
and after it staying in their order, and puts `b` on the front of the recycle
list, before the objects already there. For buffers and for sources. -/
theorem delete_moves_to_recycle_front (env : Env β σ V) (ctx : AudioContext β σ V)
    (h : Reachable env ctx) :
    (∀ b ∈ ctx.buffers, ∃ l1 l2, ctx.buffers = l1 ++ b :: l2 ∧
        (deleteBuffer ctx b.id).buffers = l1 ++ l2 ∧
        (deleteBuffer ctx b.id).buffers_pool = b :: ctx.buffers_pool) ∧
      (∀ s ∈ ctx.sources, ∃ l1 l2, ctx.sources = l1 ++ s :: l2 ∧
        (deleteSource ctx s.id).sources = l1 ++ l2 ∧
        (deleteSource ctx s.id).sources_pool = s :: ctx.sources_pool) := by
  have hi := ctxInv_of_reachable env ctx h
  exact ⟨fun b hb => deleteBuffer_of_mem ctx hi b hb, fun s hs => deleteSource_of_mem ctx hi s hs⟩

/-- Instance of the amended C7 at `sampleCtx`. -/
theorem delete_moves_to_recycle_front_witness :
    Reachable unitEnv sampleCtx ∧
      ∃ l1 l2, sampleCtx.buffers = l1 ++ { id := 2, payload := () } :: l2 ∧
        (deleteBuffer sampleCtx 2).buffers = l1 ++ l2 ∧
        (deleteBuffer sampleCtx 2).buffers_pool =
          { id := 2, payload := () } :: sampleCtx.buffers_pool :=
  ⟨sampleCtx_reachable,
    (delete_moves_to_recycle_front unitEnv sampleCtx sampleCtx_reachable).1
      { id := 2, payload := () } (by decide)⟩

/-! ## Deletion followed by creation -/

theorem createBuffer_after_delete (env : Env β σ V) (ctx : AudioContext β σ V)
    (hi : CtxInv ctx) (b : AudioBuffer β) (hb : b ∈ ctx.buffers) :
    ∃ l1 l2, ctx.buffers = l1 ++ b :: l2 ∧
      createBuffer env (deleteBuffer ctx b.id) =
        (b.id, { ctx with buffers := b :: (l1 ++ l2) }) := by
  obtain ⟨l1, l2, hl, h1, h2⟩ := deleteBuffer_of_mem ctx hi b hb
  refine ⟨l1, l2, hl, ?_⟩
  have hle := hi.1.1
  rw [hl] at hle
  simp only [List.length_append, List.length_cons] at hle
  have hlt : (deleteBuffer ctx b.id).buffers.length < MAXBUFFERS := by
    rw [h1, List.length_append]; omega
  rw [createBuffer_recycle env _ b ctx.buffers_pool hlt h2, h1]
  rfl

theorem createSource_after_delete (env : Env β σ V) (ctx : AudioContext β σ V)
    (hi : CtxInv ctx) (s : AudioSource σ) (hs : s ∈ ctx.sources) :
    ∃ l1 l2, ctx.sources = l1 ++ s :: l2 ∧
      createSource env (deleteSource ctx s.id) =
        (s.id, { ctx with sources := s :: (l1 ++ l2) }) := by
  obtain ⟨l1, l2, hl, h1, h2⟩ := deleteSource_of_mem ctx hi s hs
  refine ⟨l1, l2, hl, ?_⟩
  have hle := hi.2.1
  rw [hl] at hle
  simp only [List.length_append, List.length_cons] at hle
  have hlt : (deleteSource ctx s.id).sources.length < MAXSOURCES := by
    rw [h1, List.length_append]; omega
  rw [createSource_recycle env _ s ctx.sources_pool hlt h2, h1]
  rfl

/-- C5. In every context reached from an empty one and for every active object
`b`, deleting `b.id` and then creating returns `b.id` again (which is not the
failure value), with `b` itself, the deleted object, put at the front of the
active list, the recycle list as it was before the two calls, and the number of
objects, active plus recycled, the same as before. For buffers and for
sources. -/
theorem delete_then_create_reuses (env : Env β σ V) (ctx : AudioContext β σ V)
    (h : Reachable env ctx) :
    (∀ b ∈ ctx.buffers,
        (createBuffer env (deleteBuffer ctx b.id)).1 = b.id ∧ b.id ≠ -1 ∧
        (∃ l1 l2, ctx.buffers = l1 ++ b :: l2 ∧
          (createBuffer env (deleteBuffer ctx b.id)).2.buffers = b :: (l1 ++ l2)) ∧
        (createBuffer env (deleteBuffer ctx b.id)).2.buffers_pool = ctx.buffers_pool ∧
        (createBuffer env (deleteBuffer ctx b.id)).2.buffers.length +
            (createBuffer env (deleteBuffer ctx b.id)).2.buffers_pool.length =
          ctx.buffers.length + ctx.buffers_pool.length) ∧
      (∀ s ∈ ctx.sources,
        (createSource env (deleteSource ctx s.id)).1 = s.id ∧ s.id ≠ -1 ∧
        (∃ l1 l2, ctx.sources = l1 ++ s :: l2 ∧
          (createSource env (deleteSource ctx s.id)).2.sources = s :: (l1 ++ l2)) ∧
        (createSource env (deleteSource ctx s.id)).2.sources_pool = ctx.sources_pool ∧
        (createSource env (deleteSource ctx s.id)).2.sources.length +
            (createSource env (deleteSource ctx s.id)).2.sources_pool.length =
          ctx.sources.length + ctx.sources_pool.length) := by
  have hi := ctxInv_of_reachable env ctx h
  constructor
  · intro b hb
    obtain ⟨l1, l2, hl, hc⟩ := createBuffer_after_delete env ctx hi b hb
    have hr := (poolInv_mem_range _ _ _ hi.1 b (List.mem_append_left _ hb)).1
    rw [hc]
    refine ⟨rfl, by omega, ⟨l1, l2, hl, rfl⟩, rfl, ?_⟩
    show (b :: (l1 ++ l2)).length + ctx.buffers_pool.length = _
    rw [hl]
    simp only [List.length_append, List.length_cons]
    omega
  · intro s hs
    obtain ⟨l1, l2, hl, hc⟩ := createSource_after_delete env ctx hi s hs
    have hr := (poolInv_mem_range _ _ _ hi.2 s (List.mem_append_left _ hs)).1
    rw [hc]
    refine ⟨rfl, by omega, ⟨l1, l2, hl, rfl⟩, rfl, ?_⟩
    show (s :: (l1 ++ l2)).length + ctx.sources_pool.length = _
    rw [hl]
    simp only [List.length_append, List.length_cons]
    omega

/-- Instance of C5 at `sampleCtx`: buffer 2 is deleted and the next creation
returns 2, although buffer 1 was recycled earlier. -/
theorem delete_then_create_reuses_witness :
    Reachable unitEnv sampleCtx ∧
      (createBuffer unitEnv (deleteBuffer sampleCtx 2)).1 = 2 ∧
      (createBuffer unitEnv (deleteBuffer sampleCtx 2)).2.buffers_pool = sampleCtx.buffers_pool :=
  ⟨sampleCtx_reachable,
    ((delete_then_create_reuses unitEnv sampleCtx sampleCtx_reachable).1
      { id := 2, payload := () } (by decide)).1,
    ((delete_then_create_reuses unitEnv sampleCtx sampleCtx_reachable).1
      { id := 2, payload := () } (by decide)).2.2.2.1⟩

/-! ## Queries -/

theorem poolInv_disjoint (cap : Nat) (active recycle : List (AudioObject α))
    (h : PoolInv cap active recycle) (b : AudioObject α) (hb : b ∈ active) : b ∉ recycle := by
  intro hr
  have hn := poolInv_nodup_all cap active recycle h
  rw [List.map_append, List.nodup_append] at hn
  exact hn.2.2 (List.mem_map_of_mem (fun o => o.id) hb) (List.mem_map_of_mem (fun o => o.id) hr)

theorem scanIs_removeIf (id : Int) (l pool : List (AudioObject α)) :
    scanIs id (removeIf id l pool).1 = false := by
  cases hs : scanIs id (removeIf id l pool).1 with
  | false => rfl
  | true =>
    obtain ⟨b, hb, hid⟩ := (scanIs_iff id _).mp hs
    exact absurd hid (removeIf_fst_ne id l pool b hb)

theorem scan_facts (id : Int) (l : List (AudioObject α)) :
    (scanIs id l = true ↔ scanGet id l ≠ none) ∧
      (scanIs id l = true ↔ ∃ b ∈ l, b.id = id) ∧
      (∀ b, scanGet id l = some b → b.id = id ∧ b ∈ l) := by
  refine ⟨?_, scanIs_iff id l, fun b hb => ⟨(scanGet_some id l b hb).2, (scanGet_some id l b hb).1⟩⟩
  rw [← scanGet_isSome, Option.isSome_iff_ne_none]

/-- C8. In every context and for every integer `id`: `isBuffer id` is true
exactly when `getBuffer id` is not absent, and exactly when some active buffer
has that id; a buffer returned by `getBuffer id` has id `id` and is in the active
list, and in a context reached from an empty one it is not in the recycle list;
both calls leave the context as it is. `isBuffer` is true for the value returned
by a `createBuffer` that did not fail, asked right after it, and false for `id`
right after `deleteBuffer id`. The same for sources. -/
theorem exists_iff_lookup (env : Env β σ V) (ctx : AudioContext β σ V) (id : Int) :
    ((isBuffer ctx id = true ↔ getBuffer ctx id ≠ none) ∧
      (isBuffer ctx id = true ↔ ∃ b ∈ ctx.buffers, b.id = id) ∧
      (∀ b, getBuffer ctx id = some b → b.id = id ∧ b ∈ ctx.buffers) ∧
      (Reachable env ctx → ∀ b, getBuffer ctx id = some b → b ∉ ctx.buffers_pool) ∧
      step env ctx (Op.isBuffer id) = some ctx ∧ step env ctx (Op.getBuffer id) = some ctx ∧
      ((ctx.buffers.length < MAXBUFFERS ∨ (createBuffer env ctx).1 ≠ -1) →
        isBuffer (createBuffer env ctx).2 (createBuffer env ctx).1 = true) ∧
      isBuffer (deleteBuffer ctx id) id = false) ∧
    ((isSource ctx id = true ↔ getSource ctx id ≠ none) ∧
      (isSource ctx id = true ↔ ∃ s ∈ ctx.sources, s.id = id) ∧
      (∀ s, getSource ctx id = some s → s.id = id ∧ s ∈ ctx.sources) ∧
      (Reachable env ctx → ∀ s, getSource ctx id = some s → s ∉ ctx.sources_pool) ∧
      step env ctx (Op.isSource id) = some ctx ∧ step env ctx (Op.getSource id) = some ctx ∧
      ((ctx.sources.length < MAXSOURCES ∨ (createSource env ctx).1 ≠ -1) →
        isSource (createSource env ctx).2 (createSource env ctx).1 = true) ∧
      isSource (deleteSource ctx id) id = false) := by
  constructor
  · obtain ⟨f1, f2, f3⟩ := scan_facts id ctx.buffers
    refine ⟨f1, f2, f3, ?_, rfl, rfl, ?_, scanIs_removeIf id ctx.buffers ctx.buffers_pool⟩
    · intro hr b hb
      exact poolInv_disjoint _ _ _ (ctxInv_of_reachable env ctx hr).1 b (f3 b hb).2
    · intro hor
      have hlt : ctx.buffers.length < MAXBUFFERS := by
        rcases hor with hlt | hne
        · exact hlt
        · by_contra hge
          exact hne (by rw [createBuffer_full env ctx (by omega)])
      obtain ⟨o, ho, hid⟩ := createBuffer_head env ctx hlt
      show scanIs _ (createBuffer env ctx).2.buffers = true
      rw [ho, ← hid]
      simp [scanIs]
  · obtain ⟨f1, f2, f3⟩ := scan_facts id ctx.sources
    refine ⟨f1, f2, f3, ?_, rfl, rfl, ?_, scanIs_removeIf id ctx.sources ctx.sources_pool⟩
    · intro hr s hs
      exact poolInv_disjoint _ _ _ (ctxInv_of_reachable env ctx hr).2 s (f3 s hs).2
    · intro hor
      have hlt : ctx.sources.length < MAXSOURCES := by
        rcases hor with hlt | hne
        · exact hlt
        · by_contra hge
          exact hne (by rw [createSource_full env ctx (by omega)])
      obtain ⟨o, ho, hid⟩ := createSource_head env ctx hlt
      show scanIs _ (createSource env ctx).2.sources = true
      rw [ho, ← hid]
      simp [scanIs]

/-- Instance of C8 at `sampleCtx`: buffer 2 is active and found, buffer 1 sits in
the recycle list and is not found, and the buffer created next is found under the
returned id. -/
theorem exists_iff_lookup_witness :
    isBuffer sampleCtx 2 = true ∧ getBuffer sampleCtx 2 = some { id := 2, payload := () } ∧
      isBuffer sampleCtx 1 = false ∧ getBuffer sampleCtx 1 = none ∧
      ({ id := 2, payload := () } : AudioBuffer Unit) ∉ sampleCtx.buffers_pool ∧
      isBuffer (createBuffer unitEnv sampleCtx).2 (createBuffer unitEnv sampleCtx).1 = true :=
  ⟨by decide, by decide, by decide, by decide,
    (exists_iff_lookup unitEnv sampleCtx 2).1.2.2.2.1 sampleCtx_reachable _ (by decide),
    (exists_iff_lookup unitEnv sampleCtx 2).1.2.2.2.2.2.2.1 (Or.inl (by decide))⟩

/-! ## Tick-to-byte conversion -/

theorem toU64_of_range (x : Int) (h0 : 0 ≤ x) (h1 : x < 2 ^ 64) : toU64 x = x :=
  Int.emod_eq_of_lt h0 h1

theorem toI64_of_range (x : Int) (h0 : -2 ^ 63 ≤ x) (h1 : x < 2 ^ 63) : toI64 x = x := by
  unfold toI64
  split <;> omega

theorem toI32_of_range (x : Int) (h0 : -2 ^ 31 ≤ x) (h1 : x < 2 ^ 31) : toI32 x = x := by
  unfold toI32
  split <;> omega

theorem nsecs_eq (t : timespec) (h0 : 0 ≤ nsOf t) (h1 : nsOf t < 2 ^ 64) :
    toU64 (toU64 (toU64 t.tv_sec * 1000000000) + toU64 t.tv_nsec) = nsOf t := by
  unfold toU64 nsOf at *
  omega

theorem nsOf_lt_of_mul_lt (n f : Int) (hn : 0 ≤ n) (hf : 0 < f) (hov : n * f < 2 ^ 64) :
    n < 2 ^ 64 := by
  have : n ≤ n * f := by nlinarith
  omega

/-- The value of `ticksToSamples` when nothing wraps. -/
theorem ticksToSamples_eq (a : Int) (t : timespec) (f : Int)
    (hn : 0 ≤ nsOf t) (hf : 0 < f) (hf' : f < 2 ^ 31) (hov : nsOf t * f < 2 ^ 64)
    (ha : -2 ^ 63 ≤ a) (ha' : a + nsOf t * f % 1000000000 < 2 ^ 63) :
    ticksToSamples a t f =
      if a + nsOf t * f % 1000000000 ≥ 500000000 then
        (nsOf t * f / 1000000000 + 1, a + nsOf t * f % 1000000000 - 1000000000)
      else
        (nsOf t * f / 1000000000, a + nsOf t * f % 1000000000) := by
  have hn' := nsOf_lt_of_mul_lt (nsOf t) f hn hf hov
  have hP0 : 0 ≤ nsOf t * f := by positivity
  unfold ticksToSamples
  simp only [nsecs_eq t hn hn', toU64_of_range f (by omega) (by omega),
    toU64_of_range (nsOf t * f) hP0 hov]
  generalize nsOf t * f = P at *
  have hfrac : toI64 (toU64 a + P % 1000000000) = a + P % 1000000000 := by
    unfold toI64 toU64
    split <;> omega
  rw [hfrac]
  split
  · rw [toU64_of_range (P / 1000000000 + 1) (by omega) (by omega),
      toI64_of_range (a + P % 1000000000 - 1000000000) (by omega) (by omega)]
  · rfl

/-- The byte count of `ticksToBytes` for a sample count `smp` whose product with
`alignSize` fits an `int`. -/
theorem bytes_of_samples (smp alignSize : Int) (hs : 0 ≤ smp) (hal : 0 < alignSize)
    (hint : alignSize * smp < 2 ^ 31) :
    toI32 (toU64 (smp * toU64 alignSize)) = alignSize * smp := by
  by_cases h : smp = 0
  · subst h
    simp [toI32, toU64]
  · have h0 : 0 ≤ alignSize * smp := by positivity
    have h1 : 1 ≤ smp := by omega
    have h2 : alignSize * 1 ≤ alignSize * smp := mul_le_mul_of_nonneg_left h1 hal.le
    rw [toU64_of_range alignSize (by omega) (by omega), mul_comm smp alignSize,
      toU64_of_range _ h0 (by omega), toI32_of_range _ (by omega) hint]

/-- C10. For an interval with seconds >= 0 and 0 <= nanoseconds < 1e9, a
positive frequency `f`, a positive `alignSize` and a prior accumulator `a`, when
nothing overflows (`n * f` fits 64 bits unsigned, `a + r` fits 64 bits signed,
`alignSize * (q + 1)` fits an `int`), with `n = seconds * 1e9 + nanoseconds`,
`q = floor (n * f / 1e9)` and `r = (n * f) mod 1e9`: `ticksToBytes` returns
`alignSize * (q + 1)` and leaves the accumulator at `a + r - 1e9` if
`a + r >= 5e8`, and returns `alignSize * q` and leaves it at `a + r` otherwise.
The result is a multiple of `alignSize`, and the sample count, the result
divided by `alignSize`, is `q` or `q + 1`. -/
theorem ticksToBytes_value (a : Int) (ticks : timespec) (alignSize f : Int)
    (hsec : 0 ≤ ticks.tv_sec) (hns0 : 0 ≤ ticks.tv_nsec) (_hns1 : ticks.tv_nsec < 1000000000)
    (hf : 0 < f) (hf' : f < 2 ^ 31) (hal : 0 < alignSize)
    (hov : nsOf ticks * f < 2 ^ 64)
    (ha : -2 ^ 63 ≤ a) (ha' : a + nsOf ticks * f % 1000000000 < 2 ^ 63)
    (hint : alignSize * (nsOf ticks * f / 1000000000 + 1) < 2 ^ 31) :
    ticksToBytes a ticks alignSize f =
        (if a + nsOf ticks * f % 1000000000 ≥ 500000000 then
          (alignSize * (nsOf ticks * f / 1000000000 + 1),
            a + nsOf ticks * f % 1000000000 - 1000000000)
        else
          (alignSize * (nsOf ticks * f / 1000000000), a + nsOf ticks * f % 1000000000)) ∧
      alignSize ∣ (ticksToBytes a ticks alignSize f).1 ∧
      ((nbSamples a ticks alignSize f).1 = nsOf ticks * f / 1000000000 ∨
        (nbSamples a ticks alignSize f).1 = nsOf ticks * f / 1000000000 + 1) := by
  have hn : 0 ≤ nsOf ticks := by unfold nsOf; omega
  have hP0 : 0 ≤ nsOf ticks * f := by positivity
  have hq : 0 ≤ nsOf ticks * f / 1000000000 := Int.ediv_nonneg hP0 (by omega)
  have hle : alignSize * (nsOf ticks * f / 1000000000) ≤
      alignSize * (nsOf ticks * f / 1000000000 + 1) :=
    mul_le_mul_of_nonneg_left (by omega) hal.le
  have hval : ticksToBytes a ticks alignSize f =
      (if a + nsOf ticks * f % 1000000000 ≥ 500000000 then
        (alignSize * (nsOf ticks * f / 1000000000 + 1),
          a + nsOf ticks * f % 1000000000 - 1000000000)
      else
        (alignSize * (nsOf ticks * f / 1000000000), a + nsOf ticks * f % 1000000000)) := by
    unfold ticksToBytes
    simp only [ticksToSamples_eq a ticks f hn hf hf' hov ha ha']
    split
    · simp only [bytes_of_samples _ alignSize (by omega) hal hint]
    · simp only [bytes_of_samples _ alignSize hq hal (by omega)]
  refine ⟨hval, ?_, ?_⟩
  · rw [hval]
    split
    · exact Dvd.intro _ rfl
    · exact Dvd.intro _ rfl
  · unfold nbSamples
    rw [hval]
    split
    · right
      exact Int.mul_tdiv_cancel_left _ (by omega)
    · left
      exact Int.mul_tdiv_cancel_left _ (by omega)

/-- Instance of C10: 10 ms at 44100 Hz with 4 bytes a frame from a zero
accumulator give 1764 bytes, and 0.1 ms from an accumulator at 0.41 of a sample
rounds up to 5 samples, 20 bytes, leaving the accumulator at -0.18. -/
theorem ticksToBytes_value_witness :
    ticksToBytes 0 { tv_sec := 0, tv_nsec := 10000000 } 4 44100 = (1764, 0) ∧
      ticksToBytes 410000000 { tv_sec := 0, tv_nsec := 100000 } 4 44100 = (20, -180000000) ∧
      (4 : Int) ∣ (ticksToBytes 410000000 { tv_sec := 0, tv_nsec := 100000 } 4 44100).1 :=
  ⟨by decide, by decide,
    (ticksToBytes_value 410000000 { tv_sec := 0, tv_nsec := 100000 } 4 44100
      (by decide) (by decide) (by decide) (by decide) (by decide) (by decide) (by decide)
      (by decide) (by decide) (by decide)).2.1⟩

/-! ## Repeated conversions -/

/-- One conversion from an accumulator in `[-5e8, 5e8)`: the samples returned
and the new accumulator account exactly for `n * f` and the old accumulator, and
the new accumulator is in `[-5e8, 5e8)` again. -/
theorem ticksToSamples_inv (a : Int) (t : timespec) (f : Int)
    (hn : 0 ≤ nsOf t) (hf : 0 < f) (hf' : f < 2 ^ 31) (hov : nsOf t * f < 2 ^ 64)
    (ha0 : -500000000 ≤ a) (ha1 : a < 500000000) :
    (ticksToSamples a t f).1 * 1000000000 + (ticksToSamples a t f).2 = nsOf t * f + a ∧
      -500000000 ≤ (ticksToSamples a t f).2 ∧ (ticksToSamples a t f).2 < 500000000 ∧
      0 ≤ (ticksToSamples a t f).1 ∧
      (ticksToSamples a t f).1 ≤ nsOf t * f / 1000000000 + 1 := by
  have hP0 : 0 ≤ nsOf t * f := by positivity
  have hr0 := Int.emod_nonneg (nsOf t * f) (show (1000000000 : Int) ≠ 0 by omega)
  have hr1 := Int.emod_lt_of_pos (nsOf t * f) (show (0 : Int) < 1000000000 by omega)
  rw [ticksToSamples_eq a t f hn hf hf' hov (by omega) (by omega)]
  generalize nsOf t * f = P at *
  split <;> simp only <;> omega

theorem samplesRepeated_inv (f : Int) (d : timespec) (hn : 0 ≤ nsOf d) (hf : 0 < f)
    (hf' : f < 2 ^ 31) (hov : nsOf d * f < 2 ^ 64) (k : Nat) (a : Int)
    (ha0 : -500000000 ≤ a) (ha1 : a < 500000000) :
    (samplesRepeated f d k a).1 * 1000000000 + (samplesRepeated f d k a).2
        = (k : Int) * (nsOf d * f) + a ∧
      -500000000 ≤ (samplesRepeated f d k a).2 ∧ (samplesRepeated f d k a).2 < 500000000 := by
  induction k generalizing a with
  | zero => simp [samplesRepeated]; omega
  | succ k ih =>
    obtain ⟨h1, h2, h3, _, _⟩ := ticksToSamples_inv a d f hn hf hf' hov ha0 ha1
    obtain ⟨i1, i2, i3⟩ := ih (ticksToSamples a d f).2 h2 h3
    simp only [samplesRepeated]
    refine ⟨?_, i2, i3⟩
    have e : ((k + 1 : Nat) : Int) * (nsOf d * f) = (k : Int) * (nsOf d * f) + nsOf d * f := by
      push_cast; ring
    rw [e]
    linarith

/-- When the byte count fits an `int`, the sample count that `mixAllSources`
derives from it is the value of `samples`. -/
theorem nbSamples_eq (a : Int) (t : timespec) (alignSize f : Int)
    (hn : 0 ≤ nsOf t) (hf : 0 < f) (hf' : f < 2 ^ 31) (hov : nsOf t * f < 2 ^ 64)
    (ha0 : -500000000 ≤ a) (ha1 : a < 500000000) (hal : 0 < alignSize)
    (hint : alignSize * (nsOf t * f / 1000000000 + 1) < 2 ^ 31) :
    nbSamples a t alignSize f = ticksToSamples a t f := by
  obtain ⟨_, _, _, h4, h5⟩ := ticksToSamples_inv a t f hn hf hf' hov ha0 ha1
  have hle : alignSize * (ticksToSamples a t f).1 ≤
      alignSize * (nsOf t * f / 1000000000 + 1) := mul_le_mul_of_nonneg_left h5 hal.le
  unfold nbSamples ticksToBytes
  simp only [bytes_of_samples _ alignSize h4 hal (by omega)]
  rw [Int.mul_tdiv_cancel_left _ (by omega)]

theorem nbSamplesRepeated_eq (alignSize f : Int) (d : timespec)
    (hn : 0 ≤ nsOf d) (hf : 0 < f) (hf' : f < 2 ^ 31) (hov : nsOf d * f < 2 ^ 64)
    (hal : 0 < alignSize) (hint : alignSize * (nsOf d * f / 1000000000 + 1) < 2 ^ 31)
    (k : Nat) (a : Int) (ha0 : -500000000 ≤ a) (ha1 : a < 500000000) :
    nbSamplesRepeated alignSize f d k a = samplesRepeated f d k a := by
  induction k generalizing a with
  | zero => rfl
  | succ k ih =>
    obtain ⟨_, h2, h3, _, _⟩ := ticksToSamples_inv a d f hn hf hf' hov ha0 ha1
    simp only [nbSamplesRepeated, samplesRepeated,
      nbSamples_eq a d alignSize f hn hf hf' hov ha0 ha1 hal hint, ih _ h2 h3]

/-- Exactness: `k` conversions of `d` from a zero accumulator return in total exactly what
one conversion of an interval of `k` times the length returns. -/
theorem samplesRepeated_eq_single (f : Int) (d D : timespec) (k : Nat)
    (hf : 0 < f) (hf' : f < 2 ^ 31) (hk : 1 ≤ k) (hd : 0 ≤ nsOf d)
    (hD : nsOf D = (k : Int) * nsOf d) (hov : nsOf D * f < 2 ^ 64) :
    nsOf d * f ≤ nsOf D * f ∧ (samplesRepeated f d k 0).1 = (ticksToSamples 0 D f).1 := by
  have hk' : (1 : Int) ≤ (k : Int) := by exact_mod_cast hk
  have hP0 : 0 ≤ nsOf d * f := by positivity
  have hle : nsOf d * f ≤ nsOf D * f := by
    rw [hD, mul_assoc]
    nlinarith
  have hDn : 0 ≤ nsOf D := by rw [hD]; positivity
  obtain ⟨h1, h2, h3⟩ :=
    samplesRepeated_inv f d hd hf hf' (by omega) k 0 (by omega) (by omega)
  obtain ⟨g1, g2, g3, _, _⟩ := ticksToSamples_inv 0 D f hDn hf hf' hov (by omega) (by omega)
  have e : nsOf D * f = (k : Int) * (nsOf d * f) := by rw [hD]; ring
  rw [e] at g1
  exact ⟨hle, by omega⟩

/-- C9. For a positive frequency `f`, an interval `d` of non-negative length, a
number `k >= 1` of calls and an interval `D` of `k` times the length of `d`,
with `n * f` fitting 64 bits unsigned for `D`: starting from a zero accumulator,
the sum of the values of `samples` of `k` successive conversions of `d` differs
by at most one from the value of `samples` of a single conversion of `D`. When
in addition the byte count fits an `int` for a positive `alignSize`, the same
holds of the sample counts `outBytes / outAlignSize` that `mixAllSources`
derives. -/
theorem repeated_conversion_drift (f : Int) (d D : timespec) (k : Nat)
    (hf : 0 < f) (hf' : f < 2 ^ 31) (hk : 1 ≤ k) (hd : 0 ≤ nsOf d)
    (hD : nsOf D = (k : Int) * nsOf d) (hov : nsOf D * f < 2 ^ 64) :
    |(samplesRepeated f d k 0).1 - (ticksToSamples 0 D f).1| ≤ 1 ∧
      ∀ alignSize : Int, 0 < alignSize →
        alignSize * (nsOf D * f / 1000000000 + 1) < 2 ^ 31 →
        |(nbSamplesRepeated alignSize f d k 0).1 - (nbSamples 0 D alignSize f).1| ≤ 1 := by
  obtain ⟨hle, heq⟩ := samplesRepeated_eq_single f d D k hf hf' hk hd hD hov
  have hk' : (1 : Int) ≤ (k : Int) := by exact_mod_cast hk
  have hDn : 0 ≤ nsOf D := by rw [hD]; positivity
  refine ⟨by rw [heq]; simp, ?_⟩
  intro alignSize hal hint
  have hq : nsOf d * f / 1000000000 ≤ nsOf D * f / 1000000000 :=
    Int.ediv_le_ediv (by omega) hle
  have hintd : alignSize * (nsOf d * f / 1000000000 + 1) < 2 ^ 31 :=
    lt_of_le_of_lt (mul_le_mul_of_nonneg_left (by omega) hal.le) hint
  rw [nbSamplesRepeated_eq alignSize f d hd hf hf' (by omega) hal hintd k 0 (by omega)
      (by omega),
    nbSamples_eq 0 D alignSize f hDn hf hf' hov (by omega) (by omega) hal hint, heq]
  simp

/-- Instance of C9: three conversions of 0.1 ms at 44100 Hz return 4 + 5 + 4
samples, and one conversion of 0.3 ms returns 13. -/
theorem repeated_conversion_drift_witness :
    (samplesRepeated 44100 { tv_sec := 0, tv_nsec := 100000 } 3 0).1 = 13 ∧
      (ticksToSamples 0 { tv_sec := 0, tv_nsec := 300000 } 44100).1 = 13 ∧
      |(nbSamplesRepeated 4 44100 { tv_sec := 0, tv_nsec := 100000 } 3 0).1 -
          (nbSamples 0 { tv_sec := 0, tv_nsec := 300000 } 4 44100).1| ≤ 1 :=
  ⟨by decide, by decide,
    (repeated_conversion_drift 44100 { tv_sec := 0, tv_nsec := 100000 }
      { tv_sec := 0, tv_nsec := 300000 } 3 (by decide) (by decide) (by decide) (by decide)
      (by decide) (by decide)).2 4 (by decide) (by decide)⟩

/-! ## Mixing -/

/-- The value of `mixAllSources` for an interval that passes the guard, with an
output bit depth of 8 or 16: the call returns exactly when `outAlignSize` is not
zero and the byte count is not negative, and then the buffer is the silence of
that many bytes with the loop over the sources run on it. -/
theorem mixAllSources_eq (env : Env β σ V) (ctx : AudioContext β σ V) (ticks : timespec)
    (hsec : 0 ≤ ticks.tv_sec) (hd : ctx.outBitDepth = 8 ∨ ctx.outBitDepth = 16) :
    mixAllSources env ctx ticks =
      if ctx.outAlignSize = 0 ∨
          (ticksToBytes ctx.samples_frac ticks ctx.outAlignSize ctx.outFrequency).1 < 0 then
        none
      else
        some { ctx with
          samples_frac :=
            (ticksToBytes ctx.samples_frac ticks ctx.outAlignSize ctx.outFrequency).2
          outBytes := (ticksToBytes ctx.samples_frac ticks ctx.outAlignSize ctx.outFrequency).1
          outNbSamples :=
            Int.tdiv (ticksToBytes ctx.samples_frac ticks ctx.outAlignSize ctx.outFrequency).1
              ctx.outAlignSize
          outSamples :=
            mixLoop env ticks
              (ticksToBytes ctx.samples_frac ticks ctx.outAlignSize ctx.outFrequency).1
              ctx.outBitDepth ctx.outNbChannels ctx.outFrequency ctx.outVolume ctx.sources
              (List.replicate
                (ticksToBytes ctx.samples_frac ticks ctx.outAlignSize ctx.outFrequency).1.toNat
                (silence ctx.outBitDepth)) } := by
  unfold mixAllSources
  rw [if_neg (by omega)]
  simp only
  generalize (ticksToBytes ctx.samples_frac ticks ctx.outAlignSize ctx.outFrequency) = r
  by_cases hal : ctx.outAlignSize = 0
  · simp [hal]
  · by_cases hneg : r.1 < 0
    · rcases hd with h8 | h16
      · simp [hal, hneg, h8, assign]
      · simp [hal, hneg, h16, assign]
    · have hmin : ¬ (r.1 = -2147483648 ∧ ctx.outAlignSize = -1) := by omega
      rcases hd with h8 | h16
      · simp [hal, hneg, hmin, h8, assign, silence]
      · simp [hal, hneg, hmin, h16, assign, silence]

theorem ticksToBytes_ten_ms :
    ticksToBytes 0 { tv_sec := 0, tv_nsec := 10000000 } 4 44100 = (1764, 0) := by
  decide

/-- C11. With the shared configuration at 16 bits, 2 channels and 44100 Hz,
`init` sets `outAlignSize`, the bytes of a frame, to 4; and on the initialised
context, when the accumulator is zero and no source is active, `mixAllSources`
with the interval (0 s, 10,000,000 ns) returns with `outNbSamples = 441`,
`outBytes = 1764` and an output buffer of exactly 1764 bytes, all 0. -/
theorem mix_ten_ms_stereo16 (env : Env β σ V) (ctx : AudioContext β σ V)
    (shared_config : SharedConfig)
    (hb : shared_config.audio_bitdepth = 16) (hc : shared_config.audio_channels = 2)
    (hf : shared_config.audio_frequency = 44100)
    (hs : ctx.sources = []) (ha : ctx.samples_frac = 0) :
    (init shared_config ctx).outAlignSize = 4 ∧
      ∃ ctx', mixAllSources env (init shared_config ctx) { tv_sec := 0, tv_nsec := 10000000 }
          = some ctx' ∧
        ctx'.outNbSamples = 441 ∧ ctx'.outBytes = 1764 ∧
        ctx'.outSamples = List.replicate 1764 0 ∧ ctx'.outSamples.length = 1764 := by
  have e1 : (init shared_config ctx).outAlignSize = 4 := by
    show Int.tdiv (toI32 (shared_config.audio_channels * shared_config.audio_bitdepth)) 8 = 4
    rw [hb, hc]
    decide
  have e2 : (init shared_config ctx).outFrequency = 44100 := hf
  have e3 : (init shared_config ctx).outBitDepth = 16 := hb
  have e4 : (init shared_config ctx).samples_frac = 0 := ha
  have e5 : (init shared_config ctx).sources = [] := hs
  refine ⟨e1, ?_⟩
  generalize init shared_config ctx = c at *
  rw [mixAllSources_eq env c _ (by decide) (Or.inr e3), e1, e2, e3, e4, e5, ticksToBytes_ten_ms,
    if_neg (by decide)]
  refine ⟨_, rfl, ?_, rfl, ?_, ?_⟩
  · show Int.tdiv 1764 4 = 441
    decide
  · show List.replicate (Int.toNat 1764) (silence 16) = List.replicate 1764 0
    rfl
  · show (List.replicate (Int.toNat 1764) (silence 16)).length = 1764
    rw [List.length_replicate]
    rfl

/-- Instance of C11 at the empty context with the trivial environment. -/
theorem mix_ten_ms_stereo16_witness :
    (init stereo16 emptyCtx).outAlignSize = 4 ∧
      ∃ ctx', mixAllSources unitEnv (init stereo16 emptyCtx) { tv_sec := 0, tv_nsec := 10000000 }
          = some ctx' ∧
        ctx'.outNbSamples = 441 ∧ ctx'.outBytes = 1764 ∧
        ctx'.outSamples = List.replicate 1764 0 ∧ ctx'.outSamples.length = 1764 :=
  mix_ten_ms_stereo16 unitEnv emptyCtx stereo16 rfl rfl rfl rfl rfl

theorem mixLoop_eq_foldl (env : Env β σ V) (ticks : timespec) (b d c f : Int) (v : V)
    (srcs : List (AudioSource σ)) (out : List Nat) :
    mixLoop env ticks b d c f v srcs out =
      srcs.foldl (fun o s => env.mixWith s ticks o b d c f v) out := by
  induction srcs generalizing out with
  | nil => rfl
  | cons s rest ih => simp only [mixLoop, List.foldl_cons, ih]

theorem mixLoop_length (env : Env β σ V) (hk : KeepsLength env) (ticks : timespec)
    (b d c f : Int) (v : V) (srcs : List (AudioSource σ)) (out : List Nat) :
    (mixLoop env ticks b d c f v srcs out).length = out.length := by
  induction srcs generalizing out with
  | nil => rfl
  | cons s rest ih => simp only [mixLoop, ih, hk s ticks out b d c f v]

/-- When `mixAllSources` returns, for an interval that passes the guard and a
bit depth of 8 or 16. -/
theorem mixAllSources_returns_iff (env : Env β σ V) (ctx : AudioContext β σ V)
    (ticks : timespec) (hsec : 0 ≤ ticks.tv_sec)
    (hd : ctx.outBitDepth = 8 ∨ ctx.outBitDepth = 16) :
    (∃ ctx', mixAllSources env ctx ticks = some ctx') ↔
      (ctx.outAlignSize ≠ 0 ∧
        0 ≤ (ticksToBytes ctx.samples_frac ticks ctx.outAlignSize ctx.outFrequency).1) := by
  rw [mixAllSources_eq env ctx ticks hsec hd]
  constructor
  · rintro ⟨ctx', h⟩
    by_contra hc
    rw [if_pos (by omega)] at h
    cases h
  · rintro ⟨h1, h2⟩
    rw [if_neg (by omega)]
    exact ⟨_, rfl⟩

/-- The context that `mixAllSources` returns, for an interval that passes the
guard and a bit depth of 8 or 16. -/
theorem mixAllSources_some (env : Env β σ V) (ctx ctx' : AudioContext β σ V)
    (ticks : timespec) (hsec : 0 ≤ ticks.tv_sec)
    (hd : ctx.outBitDepth = 8 ∨ ctx.outBitDepth = 16)
    (h : mixAllSources env ctx ticks = some ctx') :
    ctx'.outBytes = (ticksToBytes ctx.samples_frac ticks ctx.outAlignSize ctx.outFrequency).1 ∧
      0 ≤ ctx'.outBytes ∧
      ctx'.outSamples =
        mixLoop env ticks ctx'.outBytes ctx.outBitDepth ctx.outNbChannels ctx.outFrequency
          ctx.outVolume ctx.sources
          (List.replicate ctx'.outBytes.toNat (silence ctx.outBitDepth)) ∧
      ctx'.outBitDepth = ctx.outBitDepth := by
  rw [mixAllSources_eq env ctx ticks hsec hd] at h
  split at h
  · cases h
  · rename_i hc
    cases h
    exact ⟨rfl, by simp only; omega, rfl, rfl⟩

/-- C12. For an interval with non-negative seconds and a context without active
sources whose bit depth is 8 or 16: `mixAllSources` returns exactly when
`outAlignSize` is not zero and the computed byte count is not negative; and when
it has returned, `outBytes` is the computed byte count, the output buffer has
that length, and every byte of it is `0x80` if the bit depth is 8 and `0x00` if
it is 16. -/
theorem silence_without_sources (env : Env β σ V) (ctx : AudioContext β σ V)
    (ticks : timespec) (hsec : 0 ≤ ticks.tv_sec) (hs : ctx.sources = [])
    (hd : ctx.outBitDepth = 8 ∨ ctx.outBitDepth = 16) :
    ((∃ ctx', mixAllSources env ctx ticks = some ctx') ↔
        (ctx.outAlignSize ≠ 0 ∧
          0 ≤ (ticksToBytes ctx.samples_frac ticks ctx.outAlignSize ctx.outFrequency).1)) ∧
      ∀ ctx', mixAllSources env ctx ticks = some ctx' →
        ctx'.outBytes =
            (ticksToBytes ctx.samples_frac ticks ctx.outAlignSize ctx.outFrequency).1 ∧
          (ctx'.outSamples.length : Int) = ctx'.outBytes ∧
          (ctx.outBitDepth = 8 → ∀ x ∈ ctx'.outSamples, x = 0x80) ∧
          (ctx.outBitDepth = 16 → ∀ x ∈ ctx'.outSamples, x = 0x00) := by
  refine ⟨mixAllSources_returns_iff env ctx ticks hsec hd, ?_⟩
  intro ctx' h
  obtain ⟨h1, h2, h3, _⟩ := mixAllSources_some env ctx ctx' ticks hsec hd h
  rw [hs] at h3
  have h4 : ctx'.outSamples = List.replicate ctx'.outBytes.toNat (silence ctx.outBitDepth) := h3
  refine ⟨h1, ?_, ?_, ?_⟩
  · rw [h4, List.length_replicate]
    omega
  · intro h8 x hx
    rw [h4, h8] at hx
    exact List.eq_of_mem_replicate hx
  · intro h16 x hx
    rw [h4, h16] at hx
    exact List.eq_of_mem_replicate hx

/-- Instance of C12: 0.1 ms mixed on the empty 16-bit context give 16 bytes, all
0, and on the empty 8-bit mono context 4 bytes, all `0x80`. -/
theorem silence_without_sources_witness :
    mixAllSources unitEnv emptyCtx { tv_sec := 0, tv_nsec := 100000 } = some silentCtx ∧
      (silentCtx.outSamples.length : Int) = silentCtx.outBytes ∧
      (∀ x ∈ silentCtx.outSamples, x = 0x00) ∧
      (mixAllSources unitEnv emptyCtx8 { tv_sec := 0, tv_nsec := 100000 }).map
          (fun c => c.outSamples) = some [0x80, 0x80, 0x80, 0x80] :=
  ⟨by decide,
    ((silence_without_sources unitEnv emptyCtx { tv_sec := 0, tv_nsec := 100000 } (by decide)
      rfl (Or.inr rfl)).2 silentCtx (by decide)).2.1,
    ((silence_without_sources unitEnv emptyCtx { tv_sec := 0, tv_nsec := 100000 } (by decide)
      rfl (Or.inr rfl)).2 silentCtx (by decide)).2.2.2 rfl,
    by decide⟩

/-! ## Negative intervals -/

/-- The early return of `mixAllSources`: with negative seconds the context is
returned as it was given. -/
theorem mixAllSources_of_negative_sec (env : Env β σ V) (ctx : AudioContext β σ V)
    (ticks : timespec) (h : ticks.tv_sec < 0) : mixAllSources env ctx ticks = some ctx := by
  unfold mixAllSources
  rw [if_pos h]

/-- An interval with non-negative nanoseconds and a negative value has negative
seconds. -/
theorem tv_sec_neg_of_value_neg (ticks : timespec) (hns : 0 ≤ ticks.tv_nsec)
    (hval : nsOf ticks < 0) : ticks.tv_sec < 0 := by
  unfold nsOf at hval
  omega

theorem markedCtx_reachable : Reachable markEnv markedCtx :=
  ⟨emptyCtx, markedOps, ⟨rfl, rfl, rfl, rfl⟩, by decide⟩

/-- C13. For every interval, a `timespec` with non-negative nanoseconds, whose
value `seconds * 1e9 + nanoseconds` is negative, `mixAllSources` returns and the
context after the call is the context before it: the active and recycle lists of
both pools, the contents and the length of the output buffer, `outBytes`,
`outNbSamples` and the accumulator are as they were. This holds whatever
`mixWith` is, the result not depending on it: no source is mixed. -/
theorem negative_interval_is_noop (env : Env β σ V) (ctx : AudioContext β σ V)
    (ticks : timespec) (hns : 0 ≤ ticks.tv_nsec) (hval : nsOf ticks < 0) :
    mixAllSources env ctx ticks = some ctx ∧
      ∀ ctx', mixAllSources env ctx ticks = some ctx' →
        ctx'.buffers = ctx.buffers ∧ ctx'.buffers_pool = ctx.buffers_pool ∧
        ctx'.sources = ctx.sources ∧ ctx'.sources_pool = ctx.sources_pool ∧
        ctx'.outSamples = ctx.outSamples ∧ ctx'.outSamples.length = ctx.outSamples.length ∧
        ctx'.outBytes = ctx.outBytes ∧ ctx'.outNbSamples = ctx.outNbSamples ∧
        ctx'.samples_frac = ctx.samples_frac := by
  have h := mixAllSources_of_negative_sec env ctx ticks (tv_sec_neg_of_value_neg ticks hns hval)
  refine ⟨h, ?_⟩
  intro ctx' h'
  rw [h] at h'
  cases h'
  exact ⟨rfl, rfl, rfl, rfl, rfl, rfl, rfl, rfl, rfl⟩

/-- Instance of C13: the interval of -1 ns, (-1 s, 999999999 ns), leaves
`markedCtx` as it is under `markEnv`, although source 1 is active there and
`markEnv` overwrites every byte it mixes: the 16 bytes of the earlier call and the
accumulator at 0.41 of a sample stay. -/
theorem negative_interval_is_noop_witness :
    Reachable markEnv markedCtx ∧
      nsOf { tv_sec := -1, tv_nsec := 999999999 } = -1 ∧
      mixAllSources markEnv markedCtx { tv_sec := -1, tv_nsec := 999999999 } = some markedCtx :=
  ⟨markedCtx_reachable, by decide,
    (negative_interval_is_noop markEnv markedCtx { tv_sec := -1, tv_nsec := 999999999 }
      (by decide) (by decide)).1⟩

/-! ## The output buffer after a call -/

theorem staleCtx_reachable : Reachable markEnv staleCtx :=
  ⟨emptyCtx, staleOps, ⟨rfl, rfl, rfl, rfl⟩, by decide⟩

/-- C14 as stated fails, in two ways. A call with a negative interval returns
early: `staleCtx`, reached with `markEnv`, has no active source and a buffer of
16 bytes all 1, and after `mixAllSources` with (-1 s, 0 ns) the buffer is still
that, not the silence of `outBytes` bytes. And with an output bit depth of 32
neither fill runs: on `depth32Ctx` the call with 0.1 ms sets `outBytes` to 32
and leaves the buffer empty. -/
theorem buffer_overwritten_counterexample :
    (Reachable markEnv staleCtx ∧ staleCtx.sources = [] ∧
        mixAllSources markEnv staleCtx { tv_sec := -1, tv_nsec := 0 } = some staleCtx ∧
        staleCtx.outSamples = List.replicate 16 1 ∧
        staleCtx.outSamples ≠ List.replicate staleCtx.outBytes.toNat (silence 16)) ∧
      (mixAllSources unitEnv depth32Ctx { tv_sec := 0, tv_nsec := 100000 } =
          some { depth32Ctx with outBytes := 32, outNbSamples := 4, samples_frac := 410000000 } ∧
        depth32Ctx.outSamples.length = 0) :=
  ⟨⟨staleCtx_reachable, rfl, by decide, rfl, by decide⟩, by decide, rfl⟩

/-- C14, amended. For an interval with non-negative seconds and an output bit
depth of 8 or 16, `mixAllSources` returns exactly when `outAlignSize` is not zero
and the computed byte count is not negative; when it has returned, `outBytes` is
the byte count computed in this call, the buffer is the result of the loop over
the sources run on the silence of `outBytes` bytes, so every byte was filled
with silence in this call before any source was mixed, and, `mixWith` keeping
the length of the buffer, the length of the buffer is `outBytes`. -/
theorem buffer_is_silence_then_mixed (env : Env β σ V) (ctx : AudioContext β σ V)
    (ticks : timespec) (hsec : 0 ≤ ticks.tv_sec)
    (hd : ctx.outBitDepth = 8 ∨ ctx.outBitDepth = 16) :
    ((∃ ctx', mixAllSources env ctx ticks = some ctx') ↔
        (ctx.outAlignSize ≠ 0 ∧
          0 ≤ (ticksToBytes ctx.samples_frac ticks ctx.outAlignSize ctx.outFrequency).1)) ∧
      ∀ ctx', mixAllSources env ctx ticks = some ctx' →
        ctx'.outBytes =
            (ticksToBytes ctx.samples_frac ticks ctx.outAlignSize ctx.outFrequency).1 ∧
          ctx'.outSamples =
            mixLoop env ticks ctx'.outBytes ctx.outBitDepth ctx.outNbChannels ctx.outFrequency
              ctx.outVolume ctx.sources
              (List.replicate ctx'.outBytes.toNat (silence ctx.outBitDepth)) ∧
          (KeepsLength env → (ctx'.outSamples.length : Int) = ctx'.outBytes) := by
  refine ⟨mixAllSources_returns_iff env ctx ticks hsec hd, ?_⟩
  intro ctx' h
  obtain ⟨h1, h2, h3, _⟩ := mixAllSources_some env ctx ctx' ticks hsec hd h
  refine ⟨h1, h3, ?_⟩
  intro hk
  rw [h3, mixLoop_length env hk, List.length_replicate]
  omega

/-- Instance of the amended C14: with `markEnv`, 0.1 ms mixed on a context with
one active source give 16 bytes, the silence overwritten with 1 by the source. -/
theorem buffer_is_silence_then_mixed_witness :
    KeepsLength markEnv ∧
      ∃ ctx', mixAllSources markEnv (createSource markEnv emptyCtx).2
          { tv_sec := 0, tv_nsec := 100000 } = some ctx' ∧
        ctx'.outBytes = 16 ∧ ctx'.outSamples = List.replicate 16 1 ∧
        (ctx'.outSamples.length : Int) = ctx'.outBytes := by
  have hk : KeepsLength markEnv := by
    intro s t out b d c f v
    show (out.map (fun _ => 1)).length = out.length
    rw [List.length_map]
  have hrun : mixAllSources markEnv (createSource markEnv emptyCtx).2
      { tv_sec := 0, tv_nsec := 100000 } =
      some { staleCtx with sources := [{ id := 1, payload := () }], sources_pool := [] } := by
    decide
  exact ⟨hk, _, hrun, rfl, rfl,
    ((buffer_is_silence_then_mixed markEnv (createSource markEnv emptyCtx).2
      { tv_sec := 0, tv_nsec := 100000 } (by decide) (Or.inr rfl)).2 _ hrun).2.2 hk⟩

/-! ## Which sources are mixed -/

theorem poolInv_not_active_of_recycled (cap : Nat) (active recycle : List (AudioObject α))
    (h : PoolInv cap active recycle) (s : AudioObject α) (hs : s ∈ recycle) : s ∉ active :=
  fun ha => poolInv_disjoint cap active recycle h s ha hs

theorem poolInv_active_nodup (cap : Nat) (active recycle : List (AudioObject α))
    (h : PoolInv cap active recycle) : active.Nodup :=
  List.Nodup.of_map _ (poolInv_nodup_active cap active recycle h)

/-- C15. With `mixWith` a function of the source, the interval, the buffer and
the format arguments, for an interval with non-negative seconds and a bit depth
of 8 or 16: `mixAllSources` returns exactly when `outAlignSize` is not zero and
the computed byte count is not negative; the buffer it leaves is the silence of
the computed byte count with `mixWith` of each source of the active list applied
in turn, once per entry of the list, each call with the same interval, the
computed byte count and the bit depth, channel count, frequency and volume of
the context; the four object lists are unchanged. In a context reached from an
empty one the active list has no repeated source, a source of the recycle list
is not in the active list, and a source just deleted is in the recycle list and
not in the active list, so it is not mixed. -/
theorem mix_applies_each_active_source (env : Env β σ V) (ctx : AudioContext β σ V)
    (ticks : timespec) (hsec : 0 ≤ ticks.tv_sec)
    (hd : ctx.outBitDepth = 8 ∨ ctx.outBitDepth = 16) :
    ((∃ ctx', mixAllSources env ctx ticks = some ctx') ↔
        (ctx.outAlignSize ≠ 0 ∧
          0 ≤ (ticksToBytes ctx.samples_frac ticks ctx.outAlignSize ctx.outFrequency).1)) ∧
      (∀ ctx', mixAllSources env ctx ticks = some ctx' →
        ctx'.outBytes =
            (ticksToBytes ctx.samples_frac ticks ctx.outAlignSize ctx.outFrequency).1 ∧
          ctx'.outSamples =
            ctx.sources.foldl
              (fun out s => env.mixWith s ticks out ctx'.outBytes ctx.outBitDepth
                ctx.outNbChannels ctx.outFrequency ctx.outVolume)
              (List.replicate ctx'.outBytes.toNat (silence ctx.outBitDepth)) ∧
          ctx'.sources = ctx.sources ∧ ctx'.sources_pool = ctx.sources_pool ∧
          ctx'.buffers = ctx.buffers ∧ ctx'.buffers_pool = ctx.buffers_pool) ∧
      (Reachable env ctx →
        ctx.sources.Nodup ∧ (∀ s ∈ ctx.sources_pool, s ∉ ctx.sources) ∧
          ∀ s ∈ ctx.sources,
            s ∉ (deleteSource ctx s.id).sources ∧ s ∈ (deleteSource ctx s.id).sources_pool) := by
  refine ⟨mixAllSources_returns_iff env ctx ticks hsec hd, ?_, ?_⟩
  · intro ctx' h
    obtain ⟨h1, _, h3, _⟩ := mixAllSources_some env ctx ctx' ticks hsec hd h
    obtain ⟨l1, l2, l3, l4⟩ := mixAllSources_lists env ctx ctx' ticks h
    rw [mixLoop_eq_foldl] at h3
    exact ⟨h1, h3, l3, l4, l1, l2⟩
  · intro hr
    have hi := ctxInv_of_reachable env ctx hr
    refine ⟨poolInv_active_nodup _ _ _ hi.2,
      fun s hs => poolInv_not_active_of_recycled _ _ _ hi.2 s hs, ?_⟩
    intro s hs
    constructor
    · intro hmem
      exact removeIf_fst_ne s.id ctx.sources ctx.sources_pool s hmem rfl
    · obtain ⟨_, _, _, _, hp⟩ := deleteSource_of_mem ctx hi s hs
      rw [hp]
      exact List.mem_cons_self _ _

theorem sampleCtx_reachable_mark : Reachable markEnv sampleCtx :=
  ⟨emptyCtx, sampleOps, ⟨rfl, rfl, rfl, rfl⟩, by decide⟩

/-- Instance of C15 at `sampleCtx` with `markEnv`: source 2 is active and marks
the 16 bytes, source 1 sits in the recycle list and is not among the active
sources. -/
theorem mix_applies_each_active_source_witness :
    Reachable markEnv sampleCtx ∧
      mixAllSources markEnv sampleCtx { tv_sec := 0, tv_nsec := 100000 } =
        some { sampleCtx with
          outBytes := 16, outNbSamples := 4, outSamples := List.replicate 16 1,
          samples_frac := 410000000 } ∧
      ({ id := 1, payload := () } : AudioSource Unit) ∉ sampleCtx.sources :=
  ⟨sampleCtx_reachable_mark, by decide,
    ((mix_applies_each_active_source markEnv sampleCtx { tv_sec := 0, tv_nsec := 100000 }
      (by decide) (Or.inr rfl)).2.2 sampleCtx_reachable_mark).2.1 _ (by decide)⟩

/-! ## Machine widths -/

/-- The value of `ticksToBytes` when nothing wraps, for an interval of
non-negative length. -/
theorem ticksToBytes_eq_exact (a : Int) (ticks : timespec) (alignSize f : Int)
    (hn : 0 ≤ nsOf ticks) (hf : 0 < f) (hf' : f < 2 ^ 31) (hal : 0 < alignSize)
    (hov : nsOf ticks * f < 2 ^ 64)
    (ha : -2 ^ 63 ≤ a) (ha' : a + nsOf ticks * f % 1000000000 < 2 ^ 63)
    (hint : alignSize * (nsOf ticks * f / 1000000000 + 1) < 2 ^ 31) :
    ticksToBytes a ticks alignSize f = ticksToBytesExact a ticks alignSize f ∧
      0 ≤ (ticksToBytes a ticks alignSize f).1 := by
  have hP0 : 0 ≤ nsOf ticks * f := by positivity
  have hq : 0 ≤ nsOf ticks * f / 1000000000 := Int.ediv_nonneg hP0 (by omega)
  have hle : alignSize * (nsOf ticks * f / 1000000000) ≤
      alignSize * (nsOf ticks * f / 1000000000 + 1) :=
    mul_le_mul_of_nonneg_left (by omega) hal.le
  unfold ticksToBytes ticksToBytesExact
  simp only [ticksToSamples_eq a ticks f hn hf hf' hov ha ha']
  have e : ticks.tv_sec * 1000000000 + ticks.tv_nsec = nsOf ticks := rfl
  rw [e]
  split
  · simp only [bytes_of_samples _ alignSize (by omega) hal hint]
    exact ⟨by rw [mul_comm], by positivity⟩
  · simp only [bytes_of_samples _ alignSize hq hal (by omega)]
    exact ⟨by rw [mul_comm], by positivity⟩

/-- C16. With the arithmetic at its machine widths, for an interval of 0 to 3600
seconds with 0 <= nanoseconds < 1e9, a frequency in [1, 48000], an `alignSize`
in [1, 8] and an accumulator in [-5e8, 5e8): the nanoseconds and their product
with the frequency are below `2 ^ 64`, the accumulator stays within 64 bits
signed, the largest byte count is below `2 ^ 31`, the `uint64_t` expressions of
the code have the values of the unbounded ones, and `ticksToBytes` returns the
result of the computation over unbounded integers, which is not negative. -/
theorem ticksToBytes_no_wrap (a : Int) (ticks : timespec) (alignSize f : Int)
    (hs0 : 0 ≤ ticks.tv_sec) (hs1 : ticks.tv_sec ≤ 3600)
    (hn0 : 0 ≤ ticks.tv_nsec) (hn1 : ticks.tv_nsec < 1000000000)
    (hf0 : 1 ≤ f) (hf1 : f ≤ 48000) (hal0 : 1 ≤ alignSize) (hal1 : alignSize ≤ 8)
    (ha0 : -500000000 ≤ a) (ha1 : a < 500000000) :
    (nsOf ticks < 2 ^ 64 ∧ nsOf ticks * f < 2 ^ 64 ∧
        -2 ^ 63 ≤ a + nsOf ticks * f % 1000000000 - 1000000000 ∧
        a + nsOf ticks * f % 1000000000 < 2 ^ 63 ∧
        (nsOf ticks * f / 1000000000 + 1) * alignSize < 2 ^ 31) ∧
      toU64 (toU64 (toU64 ticks.tv_sec * 1000000000) + toU64 ticks.tv_nsec) = nsOf ticks ∧
      toU64 (nsOf ticks * toU64 f) = nsOf ticks * f ∧
      ticksToBytes a ticks alignSize f = ticksToBytesExact a ticks alignSize f ∧
      0 ≤ (ticksToBytes a ticks alignSize f).1 := by
  have hn : 0 ≤ nsOf ticks := by unfold nsOf; omega
  have hnb : nsOf ticks ≤ 3600999999999 := by unfold nsOf; omega
  have hP0 : 0 ≤ nsOf ticks * f := by positivity
  have hP1 : nsOf ticks * f ≤ nsOf ticks * 48000 := mul_le_mul_of_nonneg_left hf1 hn
  have hov : nsOf ticks * f < 2 ^ 64 := by omega
  have hr0 := Int.emod_nonneg (nsOf ticks * f) (show (1000000000 : Int) ≠ 0 by omega)
  have hr1 := Int.emod_lt_of_pos (nsOf ticks * f) (show (0 : Int) < 1000000000 by omega)
  have hq0 : 0 ≤ nsOf ticks * f / 1000000000 := Int.ediv_nonneg hP0 (by omega)
  have hq1 : nsOf ticks * f / 1000000000 ≤ 172847999 := by omega
  have hb : alignSize * (nsOf ticks * f / 1000000000 + 1) ≤
      8 * (nsOf ticks * f / 1000000000 + 1) :=
    mul_le_mul_of_nonneg_right hal1 (by omega)
  have hint : alignSize * (nsOf ticks * f / 1000000000 + 1) < 2 ^ 31 := by omega
  have hfu : toU64 f = f := toU64_of_range f (by omega) (by omega)
  refine ⟨⟨by omega, hov, by omega, by omega, by rw [mul_comm]; exact hint⟩,
    nsecs_eq ticks hn (by omega), ?_, ?_⟩
  · rw [hfu, toU64_of_range _ hP0 hov]
  · exact ticksToBytes_eq_exact a ticks alignSize f hn (by omega) (by omega) (by omega) hov
      (by omega) (by omega) hint

/-- Instance of C16 at the largest values: 3600.999999999 s at 48000 Hz with 8
bytes a frame and the accumulator just below `5e8`. -/
theorem ticksToBytes_no_wrap_witness :
    ticksToBytes 499999999 { tv_sec := 3600, tv_nsec := 999999999 } 8 48000 =
        ticksToBytesExact 499999999 { tv_sec := 3600, tv_nsec := 999999999 } 8 48000 ∧
      ticksToBytesExact 499999999 { tv_sec := 3600, tv_nsec := 999999999 } 8 48000 =
        (1382784000, 499951999) :=
  ⟨(ticksToBytes_no_wrap 499999999 { tv_sec := 3600, tv_nsec := 999999999 } 8 48000
      (by decide) (by decide) (by decide) (by decide) (by decide) (by decide) (by decide)
      (by decide) (by decide) (by decide)).2.2.2.1,
    by decide⟩

/-! ## The accumulator along a sequence of conversions -/

theorem totalNs_cons (t : timespec) (ts : List timespec) :
    totalNs (t :: ts) = nsOf t + totalNs ts := by
  simp [totalNs]

theorem samplesSeq_inv (f : Int) (hf : 0 < f) (hf' : f < 2 ^ 31) (ts : List timespec)
    (hts : ∀ t ∈ ts, 0 ≤ nsOf t ∧ nsOf t * f < 2 ^ 64) (a : Int)
    (ha0 : -500000000 ≤ a) (ha1 : a < 500000000) :
    (samplesSeq f ts a).1 * 1000000000 + (samplesSeq f ts a).2 = totalNs ts * f + a ∧
      -500000000 ≤ (samplesSeq f ts a).2 ∧ (samplesSeq f ts a).2 < 500000000 := by
  induction ts generalizing a with
  | nil => simp [samplesSeq, totalNs]; omega
  | cons t ts ih =>
    have ht := hts t (List.mem_cons_self _ _)
    have hrest : ∀ u ∈ ts, 0 ≤ nsOf u ∧ nsOf u * f < 2 ^ 64 :=
      fun u hu => hts u (List.mem_cons_of_mem _ hu)
    obtain ⟨h1, h2, h3, _, _⟩ := ticksToSamples_inv a t f ht.1 hf hf' ht.2 ha0 ha1
    obtain ⟨i1, i2, i3⟩ := ih hrest (ticksToSamples a t f).2 h2 h3
    simp only [samplesSeq]
    refine ⟨?_, i2, i3⟩
    rw [totalNs_cons, add_mul]
    linarith

theorem nbSamplesSeq_eq (alignSize f : Int) (hf : 0 < f) (hf' : f < 2 ^ 31)
    (hal : 0 < alignSize) (ts : List timespec)
    (hts : ∀ t ∈ ts, 0 ≤ nsOf t ∧ nsOf t * f < 2 ^ 64)
    (hint : ∀ t ∈ ts, alignSize * (nsOf t * f / 1000000000 + 1) < 2 ^ 31) (a : Int)
    (ha0 : -500000000 ≤ a) (ha1 : a < 500000000) :
    nbSamplesSeq alignSize f ts a = samplesSeq f ts a := by
  induction ts generalizing a with
  | nil => rfl
  | cons t ts ih =>
    have ht := hts t (List.mem_cons_self _ _)
    have hi := hint t (List.mem_cons_self _ _)
    obtain ⟨_, h2, h3, _, _⟩ := ticksToSamples_inv a t f ht.1 hf hf' ht.2 ha0 ha1
    simp only [nbSamplesSeq, samplesSeq,
      nbSamples_eq a t alignSize f ht.1 hf hf' ht.2 ha0 ha1 hal hi,
      ih (fun u hu => hts u (List.mem_cons_of_mem _ hu))
        (fun u hu => hint u (List.mem_cons_of_mem _ hu)) _ h2 h3]

/-- The cumulative sample count from a zero accumulator is the elapsed
`n * f / 1e9` rounded half up. -/
theorem samplesSeq_round (f : Int) (hf : 0 < f) (hf' : f < 2 ^ 31) (ts : List timespec)
    (hts : ∀ t ∈ ts, 0 ≤ nsOf t ∧ nsOf t * f < 2 ^ 64) :
    -500000000 ≤ (samplesSeq f ts 0).2 ∧ (samplesSeq f ts 0).2 < 500000000 ∧
      (samplesSeq f ts 0).1 * 1000000000 + (samplesSeq f ts 0).2 = totalNs ts * f ∧
      (samplesSeq f ts 0).1 = (totalNs ts * f + 500000000) / 1000000000 := by
  obtain ⟨h1, h2, h3⟩ := samplesSeq_inv f hf hf' ts hts 0 (by omega) (by omega)
  refine ⟨h2, h3, by omega, ?_⟩
  generalize totalNs ts * f = T at *
  omega

/-- C18. For a positive frequency `f` and a sequence of conversions of intervals
of non-negative length, each with `n * f` fitting 64 bits unsigned, started from
a zero accumulator: after each call (after the first `j` intervals, for every
`j`) the accumulator `a` satisfies `-5e8 <= a < 5e8`, the samples returned so
far times `1e9` plus `a` equal the elapsed nanoseconds times `f`, and the
cumulative sample count is `floor ((elapsed * f + 5e8) / 1e9)`; two sequences
with the same total length give the same cumulative count. When also every byte
count fits an `int` for a positive `alignSize`, the sample counts
`outBytes / outAlignSize` are the values of `samples`. -/
theorem accumulator_invariant (f : Int) (ts : List timespec) (hf : 0 < f) (hf' : f < 2 ^ 31)
    (hts : ∀ t ∈ ts, 0 ≤ nsOf t ∧ nsOf t * f < 2 ^ 64) :
    (∀ j : Nat,
        -500000000 ≤ (samplesSeq f (ts.take j) 0).2 ∧
        (samplesSeq f (ts.take j) 0).2 < 500000000 ∧
        (samplesSeq f (ts.take j) 0).1 * 1000000000 + (samplesSeq f (ts.take j) 0).2
          = totalNs (ts.take j) * f ∧
        (samplesSeq f (ts.take j) 0).1
          = (totalNs (ts.take j) * f + 500000000) / 1000000000) ∧
      (∀ ts' : List timespec, (∀ t ∈ ts', 0 ≤ nsOf t ∧ nsOf t * f < 2 ^ 64) →
        totalNs ts' = totalNs ts → (samplesSeq f ts' 0).1 = (samplesSeq f ts 0).1) ∧
      (∀ alignSize : Int, 0 < alignSize →
        (∀ t ∈ ts, alignSize * (nsOf t * f / 1000000000 + 1) < 2 ^ 31) →
        nbSamplesSeq alignSize f ts 0 = samplesSeq f ts 0) := by
  refine ⟨?_, ?_, ?_⟩
  · intro j
    exact samplesSeq_round f hf hf' (ts.take j) (fun t ht => hts t (List.mem_of_mem_take ht))
  · intro ts' hts' hsum
    rw [(samplesSeq_round f hf hf' ts' hts').2.2.2, (samplesSeq_round f hf hf' ts hts).2.2.2, hsum]
  · intro alignSize hal hint
    exact nbSamplesSeq_eq alignSize f hf hf' hal ts hts hint 0 (by omega) (by omega)

/-- Instance of C18 at 44100 Hz: 0.1 ms, 0.2 ms and 10 ms give 4 + 9 + 441
samples, the same 454 as one interval of 10.3 ms, with the accumulator at 0.23 of
a sample. -/
theorem accumulator_invariant_witness :
    samplesSeq 44100 [{ tv_sec := 0, tv_nsec := 100000 }, { tv_sec := 0, tv_nsec := 200000 },
        { tv_sec := 0, tv_nsec := 10000000 }] 0 = (454, 230000000) ∧
      (samplesSeq 44100 [{ tv_sec := 0, tv_nsec := 10300000 }] 0).1 =
        (samplesSeq 44100 [{ tv_sec := 0, tv_nsec := 100000 }, { tv_sec := 0, tv_nsec := 200000 },
          { tv_sec := 0, tv_nsec := 10000000 }] 0).1 :=
  ⟨by decide,
    (accumulator_invariant 44100 [{ tv_sec := 0, tv_nsec := 100000 },
        { tv_sec := 0, tv_nsec := 200000 }, { tv_sec := 0, tv_nsec := 10000000 }]
      (by decide) (by decide) (by decide)).2.1
      [{ tv_sec := 0, tv_nsec := 10300000 }] (by decide) (by decide)⟩

/-! ## The pool invariant -/

theorem poolInv_facts (cap : Nat) (active recycle : List (AudioObject α))
    (h : PoolInv cap active recycle) :
    active.length + recycle.length ≤ cap ∧
      ((active ++ recycle).map (fun o => o.id)).Perm (idsUpTo (active.length + recycle.length)) ∧
      ((active ++ recycle).map (fun o => o.id)).Nodup ∧
      (∀ x : Int, x ∈ (active ++ recycle).map (fun o => o.id) ↔
        1 ≤ x ∧ x ≤ ((active.length + recycle.length : Nat) : Int)) ∧
      (∀ b ∈ active, b ∉ recycle) ∧
      (active.length = cap → recycle = []) := by
  refine ⟨h.1, h.2, poolInv_nodup_all cap active recycle h, ?_,
    fun b hb => poolInv_disjoint cap active recycle h b hb, ?_⟩
  · intro x
    rw [h.2.mem_iff, mem_idsUpTo]
  · intro hc
    have := h.1
    exact List.length_eq_zero.mp (by omega)

/-- C19. In every context reached from an empty one, for buffers with capacity
2048 and for sources with capacity 256: the number `n` of objects in the active
and the recycle list together is at most the capacity; their ids are a
rearrangement of `1, ..., n`, with no repetition, an integer being among them
exactly when it is between 1 and `n`; no object of the active list is in the
recycle list; and the recycle list is empty when the active count equals the
capacity. -/
theorem pool_ids_are_one_to_n (env : Env β σ V) (ctx : AudioContext β σ V)
    (h : Reachable env ctx) :
    (ctx.buffers.length + ctx.buffers_pool.length ≤ 2048 ∧
        ((ctx.buffers ++ ctx.buffers_pool).map (fun o => o.id)).Perm
          (idsUpTo (ctx.buffers.length + ctx.buffers_pool.length)) ∧
        ((ctx.buffers ++ ctx.buffers_pool).map (fun o => o.id)).Nodup ∧
        (∀ x : Int, x ∈ (ctx.buffers ++ ctx.buffers_pool).map (fun o => o.id) ↔
          1 ≤ x ∧ x ≤ ((ctx.buffers.length + ctx.buffers_pool.length : Nat) : Int)) ∧
        (∀ b ∈ ctx.buffers, b ∉ ctx.buffers_pool) ∧
        (ctx.buffers.length = 2048 → ctx.buffers_pool = [])) ∧
      (ctx.sources.length + ctx.sources_pool.length ≤ 256 ∧
        ((ctx.sources ++ ctx.sources_pool).map (fun o => o.id)).Perm
          (idsUpTo (ctx.sources.length + ctx.sources_pool.length)) ∧
        ((ctx.sources ++ ctx.sources_pool).map (fun o => o.id)).Nodup ∧
        (∀ x : Int, x ∈ (ctx.sources ++ ctx.sources_pool).map (fun o => o.id) ↔
          1 ≤ x ∧ x ≤ ((ctx.sources.length + ctx.sources_pool.length : Nat) : Int)) ∧
        (∀ s ∈ ctx.sources, s ∉ ctx.sources_pool) ∧
        (ctx.sources.length = 256 → ctx.sources_pool = [])) := by
  have hi := ctxInv_of_reachable env ctx h
  exact ⟨poolInv_facts MAXBUFFERS _ _ hi.1, poolInv_facts MAXSOURCES _ _ hi.2⟩

/-- Instance of C19 at `sampleCtx` (ids 2 and 1) and at `fullCtx` (2048 active
buffers, empty recycle list). -/
theorem pool_ids_are_one_to_n_witness :
    (sampleCtx.buffers ++ sampleCtx.buffers_pool).map (fun o => o.id) = [2, 1] ∧
      (∀ x : Int, x ∈ (sampleCtx.buffers ++ sampleCtx.buffers_pool).map (fun o => o.id) ↔
        1 ≤ x ∧ x ≤ ((sampleCtx.buffers.length + sampleCtx.buffers_pool.length : Nat) : Int)) ∧
      fullCtx.buffers_pool = [] :=
  ⟨by decide, (pool_ids_are_one_to_n unitEnv sampleCtx sampleCtx_reachable).1.2.2.2.1,
    (pool_ids_are_one_to_n unitEnv fullCtx fullCtx_reachable).1.2.2.2.2.2
      (countdown_length 2048)⟩

/-! ## Independence of the two pools -/

theorem createBuffer_frame (env : Env β σ V) (ctx : AudioContext β σ V) :
    (createBuffer env ctx).2 =
      { ctx with
        buffers := (createBuffer env ctx).2.buffers
        buffers_pool := (createBuffer env ctx).2.buffers_pool } := by
  by_cases hlen : MAXBUFFERS ≤ ctx.buffers.length
  · rw [createBuffer_full env ctx hlen]
  · cases hp : ctx.buffers_pool with
    | nil => rw [createBuffer_new env ctx (by omega) hp]
    | cons b rest => rw [createBuffer_recycle env ctx b rest (by omega) hp]

theorem createSource_frame (env : Env β σ V) (ctx : AudioContext β σ V) :
    (createSource env ctx).2 =
      { ctx with
        sources := (createSource env ctx).2.sources
        sources_pool := (createSource env ctx).2.sources_pool } := by
  by_cases hlen : MAXSOURCES ≤ ctx.sources.length
  · rw [createSource_full env ctx hlen]
  · cases hp : ctx.sources_pool with
    | nil => rw [createSource_new env ctx (by omega) hp]
    | cons b rest => rw [createSource_recycle env ctx b rest (by omega) hp]

/-- The result of `createBuffer` is determined by the two buffer lists. -/
theorem createBuffer_congr (env : Env β σ V) (ctx ctx' : AudioContext β σ V)
    (h1 : ctx'.buffers = ctx.buffers) (h2 : ctx'.buffers_pool = ctx.buffers_pool) :
    (createBuffer env ctx').1 = (createBuffer env ctx).1 := by
  by_cases hlen : MAXBUFFERS ≤ ctx.buffers.length
  · rw [createBuffer_full env ctx hlen, createBuffer_full env ctx' (by rw [h1]; exact hlen)]
  · have hlt : ctx.buffers.length < MAXBUFFERS := by omega
    cases hp : ctx.buffers_pool with
    | nil =>
      rw [createBuffer_new env ctx hlt hp,
        createBuffer_new env ctx' (by rw [h1]; exact hlt) (by rw [h2]; exact hp), h1]
    | cons b rest =>
      rw [createBuffer_recycle env ctx b rest hlt hp,
        createBuffer_recycle env ctx' b rest (by rw [h1]; exact hlt) (by rw [h2]; exact hp)]

/-- The result of `createSource` is determined by the two source lists. -/
theorem createSource_congr (env : Env β σ V) (ctx ctx' : AudioContext β σ V)
    (h1 : ctx'.sources = ctx.sources) (h2 : ctx'.sources_pool = ctx.sources_pool) :
    (createSource env ctx').1 = (createSource env ctx).1 := by
  by_cases hlen : MAXSOURCES ≤ ctx.sources.length
  · rw [createSource_full env ctx hlen, createSource_full env ctx' (by rw [h1]; exact hlen)]
  · have hlt : ctx.sources.length < MAXSOURCES := by omega
    cases hp : ctx.sources_pool with
    | nil =>
      rw [createSource_new env ctx hlt hp,
        createSource_new env ctx' (by rw [h1]; exact hlt) (by rw [h2]; exact hp), h1]
    | cons b rest =>
      rw [createSource_recycle env ctx b rest hlt hp,
        createSource_recycle env ctx' b rest (by rw [h1]; exact hlt) (by rw [h2]; exact hp)]

theorem step_onSources (env : Env β σ V) (ctx : AudioContext β σ V) (op : Op)
    (h : op.onSources = true) :
    ∃ ctx', step env ctx op = some ctx' ∧ ctx'.buffers = ctx.buffers ∧
      ctx'.buffers_pool = ctx.buffers_pool := by
  cases op with
  | createSource =>
    refine ⟨_, rfl, ?_, ?_⟩
    · rw [createSource_frame env ctx]
    · rw [createSource_frame env ctx]
  | deleteSource id => exact ⟨_, rfl, rfl, rfl⟩
  | isSource id => exact ⟨_, rfl, rfl, rfl⟩
  | getSource id => exact ⟨_, rfl, rfl, rfl⟩
  | createBuffer => cases h
  | deleteBuffer id => cases h
  | isBuffer id => cases h
  | getBuffer id => cases h
  | mixAllSources t => cases h

theorem step_onBuffers (env : Env β σ V) (ctx : AudioContext β σ V) (op : Op)
    (h : op.onBuffers = true) :
    ∃ ctx', step env ctx op = some ctx' ∧ ctx'.sources = ctx.sources ∧
      ctx'.sources_pool = ctx.sources_pool := by
  cases op with
  | createBuffer =>
    refine ⟨_, rfl, ?_, ?_⟩
    · rw [createBuffer_frame env ctx]
    · rw [createBuffer_frame env ctx]
  | deleteBuffer id => exact ⟨_, rfl, rfl, rfl⟩
  | isBuffer id => exact ⟨_, rfl, rfl, rfl⟩
  | getBuffer id => exact ⟨_, rfl, rfl, rfl⟩
  | createSource => cases h
  | deleteSource id => cases h
  | isSource id => cases h
  | getSource id => cases h
  | mixAllSources t => cases h

theorem run_onSources (env : Env β σ V) (ops : List Op) (ctx : AudioContext β σ V)
    (h : ∀ op ∈ ops, op.onSources = true) :
    ∃ ctx', run env ops ctx = some ctx' ∧ ctx'.buffers = ctx.buffers ∧
      ctx'.buffers_pool = ctx.buffers_pool := by
  induction ops generalizing ctx with
  | nil => exact ⟨ctx, rfl, rfl, rfl⟩
  | cons op ops ih =>
    obtain ⟨mid, hs, m1, m2⟩ := step_onSources env ctx op (h op (List.mem_cons_self _ _))
    obtain ⟨ctx', hr, r1, r2⟩ := ih mid (fun o ho => h o (List.mem_cons_of_mem _ ho))
    refine ⟨ctx', ?_, r1.trans m1, r2.trans m2⟩
    simp only [run, hs]
    exact hr

theorem run_onBuffers (env : Env β σ V) (ops : List Op) (ctx : AudioContext β σ V)
    (h : ∀ op ∈ ops, op.onBuffers = true) :
    ∃ ctx', run env ops ctx = some ctx' ∧ ctx'.sources = ctx.sources ∧
      ctx'.sources_pool = ctx.sources_pool := by
  induction ops generalizing ctx with
  | nil => exact ⟨ctx, rfl, rfl, rfl⟩
  | cons op ops ih =>
    obtain ⟨mid, hs, m1, m2⟩ := step_onBuffers env ctx op (h op (List.mem_cons_self _ _))
    obtain ⟨ctx', hr, r1, r2⟩ := ih mid (fun o ho => h o (List.mem_cons_of_mem _ ho))
    refine ⟨ctx', ?_, r1.trans m1, r2.trans m2⟩
    simp only [run, hs]
    exact hr

/-- C20. In every context: after `createBuffer` and after `deleteBuffer` the
context is the one before with only `buffers` and `buffers_pool` replaced, so
the source lists, the output format fields, the output buffer, the byte and
sample counts and the accumulator are as before; `isBuffer` and `getBuffer`
leave the whole context as it is; the same with buffers and sources exchanged.
Hence after any sequence of calls on sources the two buffer lists are as before
and `createBuffer` returns what it would have returned before them, and after
any sequence of calls on buffers `createSource` returns what it would have
returned before them. -/
theorem pools_are_independent (env : Env β σ V) (ctx : AudioContext β σ V) (id : Int) :
    ((createBuffer env ctx).2 =
          { ctx with
            buffers := (createBuffer env ctx).2.buffers
            buffers_pool := (createBuffer env ctx).2.buffers_pool } ∧
        deleteBuffer ctx id =
          { ctx with
            buffers := (deleteBuffer ctx id).buffers
            buffers_pool := (deleteBuffer ctx id).buffers_pool } ∧
        step env ctx (Op.isBuffer id) = some ctx ∧ step env ctx (Op.getBuffer id) = some ctx) ∧
      ((createSource env ctx).2 =
          { ctx with
            sources := (createSource env ctx).2.sources
            sources_pool := (createSource env ctx).2.sources_pool } ∧
        deleteSource ctx id =
          { ctx with
            sources := (deleteSource ctx id).sources
            sources_pool := (deleteSource ctx id).sources_pool } ∧
        step env ctx (Op.isSource id) = some ctx ∧ step env ctx (Op.getSource id) = some ctx) ∧
      (∀ ops : List Op, (∀ op ∈ ops, op.onSources = true) →
        ∃ ctx', run env ops ctx = some ctx' ∧ ctx'.buffers = ctx.buffers ∧
          ctx'.buffers_pool = ctx.buffers_pool ∧
          (createBuffer env ctx').1 = (createBuffer env ctx).1) ∧
      (∀ ops : List Op, (∀ op ∈ ops, op.onBuffers = true) →
        ∃ ctx', run env ops ctx = some ctx' ∧ ctx'.sources = ctx.sources ∧
          ctx'.sources_pool = ctx.sources_pool ∧
          (createSource env ctx').1 = (createSource env ctx).1) := by
  refine ⟨⟨createBuffer_frame env ctx, rfl, rfl, rfl⟩, ⟨createSource_frame env ctx, rfl, rfl, rfl⟩,
    ?_, ?_⟩
  · intro ops hops
    obtain ⟨ctx', hr, h1, h2⟩ := run_onSources env ops ctx hops
    exact ⟨ctx', hr, h1, h2, createBuffer_congr env ctx ctx' h1 h2⟩
  · intro ops hops
    obtain ⟨ctx', hr, h1, h2⟩ := run_onBuffers env ops ctx hops
    exact ⟨ctx', hr, h1, h2, createSource_congr env ctx ctx' h1 h2⟩

/-- Instance of C20 at `sampleCtx`: creating two sources and deleting source 2
in between does not change what `createBuffer` returns, the recycled id 1. -/
theorem pools_are_independent_witness :
    (createBuffer unitEnv sampleCtx).1 = 1 ∧
      ∃ ctx', run unitEnv [Op.createSource, Op.deleteSource 2, Op.createSource, Op.isSource 1]
          sampleCtx = some ctx' ∧
        ctx'.buffers = sampleCtx.buffers ∧ ctx'.buffers_pool = sampleCtx.buffers_pool ∧
        (createBuffer unitEnv ctx').1 = (createBuffer unitEnv sampleCtx).1 :=
  ⟨by decide,
    (pools_are_independent unitEnv sampleCtx 0).2.2.1
      [Op.createSource, Op.deleteSource 2, Op.createSource, Op.isSource 1] (by decide)⟩

/-! ## Linking of a function -/

theorem link_function_linked (dl : DlEnv) (function : Nat) (source : String)
    (library version : Option String) (h : function ≠ 0) :
    link_function dl function source library version = (true, function, []) := by
  unfold link_function
  rw [if_pos h]

theorem link_function_global (dl : DlEnv) (source : String)
    (library version : Option String) (h : globalLookup dl source version ≠ 0) :
    link_function dl 0 source library version =
      (true, globalLookup dl source version, [globalCall source version]) := by
  unfold link_function
  rw [if_neg (by simp)]
  unfold globalLookup at h
  simp only
  rw [if_pos h]
  rfl

theorem link_function_library (dl : DlEnv) (source lib : String) (version : Option String)
    (h : globalLookup dl source version = 0) :
    (link_function dl 0 source (some lib) version).1 =
        decide (libraryLookup dl lib source ≠ 0) ∧
      (link_function dl 0 source (some lib) version).2.1 = libraryLookup dl lib source ∧
      (link_function dl 0 source (some lib) version).2.2.head?
        = some (globalCall source version) := by
  unfold link_function
  rw [if_neg (by simp)]
  unfold globalLookup at h
  simp only
  rw [if_neg (by rw [h]; simp)]
  unfold libraryLookup
  by_cases h1 : dl.find_lib lib = ""
  · simp [h1]
  · by_cases h2 : dl.dlopen (dl.find_lib lib) = 0
    · simp [h1, h2]
    · by_cases h3 : dl.dlsym (dl.dlopen (dl.find_lib lib)) source = 0
      · simp [h1, h2, h3]
      · simp [h1, h2, h3]

theorem link_function_no_library (dl : DlEnv) (source : String) (version : Option String)
    (h : globalLookup dl source version = 0) :
    link_function dl 0 source none version = (false, 0, [globalCall source version]) := by
  unfold link_function
  rw [if_neg (by simp)]
  unfold globalLookup at h
  simp only
  rw [if_neg (by rw [h]; simp)]

/-- C17. With the lookups of the dynamic linker as given functions:
`link_function` returns true exactly when `*function` is not null on return; if
`*function` is not null on entry it returns true, leaves the pointer as it is
and makes no call to the linker; otherwise the first call made is the lookup in
the global namespace, and if that is not null it is the pointer set and no other
call is made; a call for the matching library is made only if `*function` was
null, the global lookup failed and a library name is given, and then the result
of the library lookup decides; if the global lookup fails and there is no
library name or the library lookup fails, false is returned and `*function` is
null. -/
theorem link_function_contract (dl : DlEnv) (function : Nat) (source : String)
    (library version : Option String) :
    ((link_function dl function source library version).1 = true ↔
        (link_function dl function source library version).2.1 ≠ 0) ∧
      (function ≠ 0 →
        link_function dl function source library version = (true, function, [])) ∧
      (function = 0 →
        (link_function dl function source library version).2.2.head?
          = some (globalCall source version)) ∧
      (function = 0 → globalLookup dl source version ≠ 0 →
        link_function dl function source library version =
          (true, globalLookup dl source version, [globalCall source version])) ∧
      (1 < (link_function dl function source library version).2.2.length →
        function = 0 ∧ globalLookup dl source version = 0 ∧ library ≠ none) ∧
      (function = 0 → globalLookup dl source version = 0 →
        ∀ lib, library = some lib →
          (link_function dl function source library version).1 =
              decide (libraryLookup dl lib source ≠ 0) ∧
            (link_function dl function source library version).2.1 =
              libraryLookup dl lib source) ∧
      (function = 0 → globalLookup dl source version = 0 →
        (library = none ∨ ∃ lib, library = some lib ∧ libraryLookup dl lib source = 0) →
        (link_function dl function source library version).1 = false ∧
          (link_function dl function source library version).2.1 = 0) := by
  by_cases hf : function = 0
  · subst hf
    by_cases hg : globalLookup dl source version = 0
    · cases library with
      | none =>
        rw [link_function_no_library dl source version hg]
        refine ⟨by simp, by simp, fun _ => rfl, fun _ h => absurd hg h, by simp, ?_, ?_⟩
        · intro _ _ lib hl
          cases hl
        · intro _ _ _
          exact ⟨rfl, rfl⟩
      | some lib =>
        obtain ⟨l1, l2, l3⟩ := link_function_library dl source lib version hg
        refine ⟨?_, by simp, fun _ => l3, fun _ h => absurd hg h,
          fun _ => ⟨rfl, hg, by simp⟩, ?_, ?_⟩
        · rw [l1, l2]
          simp
        · intro _ _ lib' hl
          cases hl
          exact ⟨l1, l2⟩
        · intro _ _ hor
          rcases hor with hn | ⟨lib', hl, hz⟩
          · cases hn
          · cases hl
            rw [l1, l2, hz]
            simp
    · rw [link_function_global dl source library version hg]
      refine ⟨by simp [hg], by simp, fun _ => rfl, fun _ _ => rfl, by simp,
        fun _ h => absurd h hg, fun _ h => absurd h hg⟩
  · rw [link_function_linked dl function source library version hf]
    refine ⟨by simp [hf], fun _ => rfl, fun h => absurd h hf, fun h => absurd h hf, by simp,
      fun h => absurd h hf, fun h => absurd h hf⟩

/-- Instance of C17 with `sampleDl`: `malloc` is found in the global namespace,
`alSourcePlay` only in the library `openal`, `alFoo` nowhere, and a pointer
already set is kept without any call. -/
theorem link_function_contract_witness :
    link_function sampleDl 0 "malloc" (some "openal") none
        = (true, 100, [DlCall.dlsym_next "malloc"]) ∧
      link_function sampleDl 0 "alSourcePlay" (some "openal") none
        = (true, 200, [DlCall.dlsym_next "alSourcePlay", DlCall.find_lib "openal",
            DlCall.dlopen "/usr/lib/libopenal.so", DlCall.dlsym 7 "alSourcePlay"]) ∧
      (link_function sampleDl 0 "alFoo" (some "openal") none).1 = false ∧
      (link_function sampleDl 0 "alFoo" (some "openal") none).2.1 = 0 ∧
      link_function sampleDl 55 "alFoo" (some "openal") none = (true, 55, []) :=
  ⟨by decide, by decide, by decide, by decide,
    (link_function_contract sampleDl 55 "alFoo" (some "openal") none).2.1 (by decide)⟩

end libtas
